import Mathlib

/-!
# Verification of the agentic_chatbot backend against its specification

Shallow embedding of the data-cleaning, aggregation, dispatch and retry
logic of the repository (src/backend).  Python floats that hold monetary
amounts and percentages are modelled as exact rationals (`ℚ`); the inputs
exercised by the claims stay far from any binary-rounding boundary, and the
spots where `float` semantics could matter are noted in the doc comments.
Python `round(x, 1)` is modelled by `roundTo1` (round half away from zero is
irrelevant here: no claim depends on tie behaviour, and every concrete input
used is not a tie).
-/

/-- Python `round(x, 1)`: scale by ten, round to the nearest integer,
scale back.  Mirrors the `round(..., 1)` calls in
`src/backend/agent/tools.py`. -/
def roundTo1 (q : ℚ) : ℚ := ((round (q * 10) : ℤ) : ℚ) / 10

/-! ## C1 — win rate (src/backend/agent/tools.py, query_deals_board lines
124-135 and aggregate_metrics lines 579-599)

Both sites compute `won` as the number of records whose `Deal Status` is
literally `"Won"`, `dead` likewise for `"Dead"`, and
`round(won / (won + dead) * 100, 1)` when `won + dead > 0`, else `None`.
The status of a record is an optional string (missing fields are `None`).
-/

/-- Count of records whose `Deal Status` equals `"Won"`
(`status_breakdown.get("Won", 0)` in `query_deals_board`,
`sum(1 for r in v if r.get("Deal Status") == "Won")` in
`aggregate_metrics`). -/
def wonCount (ss : List (Option String)) : Nat := ss.countP (· = some "Won")

/-- Count of records whose `Deal Status` equals `"Dead"`. -/
def deadCount (ss : List (Option String)) : Nat := ss.countP (· = some "Dead")

/-- The win rate reported for a list of `Deal Status` values:
`round(won / decided * 100, 1) if decided > 0 else None`, with
`decided = won + dead`.  Shared formula of `query_deals_board` (lines
124-128) and each `aggregate_metrics` win-rate group (lines 582-588). -/
def winRatePct (ss : List (Option String)) : Option ℚ :=
  let w := wonCount ss
  let d := deadCount ss
  if 0 < w + d then some (roundTo1 ((w : ℚ) / ((w : ℚ) + (d : ℚ)) * 100)) else none

/-! ## C3 — retry loop of `execute_query` (src/backend/monday_client.py,
lines 21-68)

One network attempt either times out or yields a reply carrying an HTTP
status code, the parsed `Retry-After` header value (default 5), and — for
successful statuses — an optional GraphQL `errors` message.  The loop body
(`for attempt in range(3)`):
  * status 429 → `sleep(Retry-After)` then `continue` — the `continue` is
    inside the bounded `for`, so it consumes the attempt;
  * timeout → if `attempt < 2`, `sleep(2^attempt)` then `continue`, else
    raise the timeout error;
  * `raise_for_status`: status ≥ 500 with `attempt < 2` → `sleep(2^attempt)`
    and `continue`; any other status ≥ 400 → raise the HTTP error;
  * a GraphQL `errors` payload → raise immediately (not caught by the
    `except` clauses, which only catch the httpx exceptions);
  * otherwise → return the result.
Falling out of the loop raises "Monday.com API: max retries exceeded".
The model consumes the (at most 3) responses as a list, tracks the attempt
index, and returns the outcome together with the sleeps performed. -/

/-- One attempt's observable behaviour of the external API. -/
inductive MResp where
  | timeout : MResp
  | reply (status : Nat) (retryAfter : Nat) (gqlError : Option String) : MResp
deriving DecidableEq, Repr

/-- Outcome of `execute_query`. -/
inductive MOutcome where
  | success : MOutcome
  | gqlError (msg : String) : MOutcome
  | httpError (code : Nat) : MOutcome
  | timeoutError : MOutcome
  | maxRetriesExceeded : MOutcome
deriving DecidableEq, Repr

/-- The retry loop of `execute_query` over the remaining responses
(`a` is the current value of `attempt`; the caller supplies 3 responses
and `a = 0`, so the list runs out exactly when the `for` loop ends). -/
def executeQueryGo : List MResp → Nat → List Nat → MOutcome × List Nat
  | [], _, sleeps => (.maxRetriesExceeded, sleeps)
  | r :: rest, a, sleeps =>
    match r with
    | .timeout =>
        if a < 2 then executeQueryGo rest (a + 1) (sleeps ++ [2 ^ a])
        else (.timeoutError, sleeps)
    | .reply status retryAfter gqlError =>
        if status = 429 then executeQueryGo rest (a + 1) (sleeps ++ [retryAfter])
        else if 400 ≤ status then
          if a < 2 ∧ 500 ≤ status then executeQueryGo rest (a + 1) (sleeps ++ [2 ^ a])
          else (.httpError status, sleeps)
        else
          match gqlError with
          | some msg => (.gqlError msg, sleeps)
          | none => (.success, sleeps)

/-- `execute_query`: up to `max_retries = 3` attempts, starting at
attempt 0. -/
def executeQuery (r0 r1 r2 : MResp) : MOutcome × List Nat :=
  executeQueryGo [r0, r1, r2] 0 []

/-- The responses that make attempt `a`'s loop body `continue`:
rate-limited, or (before the last attempt) timed out or 5xx. -/
def continuesAt (r : MResp) (a : Nat) : Prop :=
  match r with
  | .timeout => a < 2
  | .reply status _ _ => status = 429 ∨ (a < 2 ∧ 500 ≤ status)

instance (r : MResp) (a : Nat) : Decidable (continuesAt r a) := by
  unfold continuesAt
  cases r <;> infer_instance

/-- A rate-limited (HTTP 429) response. -/
def isRateLimited (r : MResp) : Prop :=
  match r with
  | .timeout => False
  | .reply status _ _ => status = 429

instance (r : MResp) : Decidable (isRateLimited r) := by
  unfold isRateLimited
  cases r <;> infer_instance

/-- The sleep the loop performs before retrying after response `r` at
attempt `a`: the server-specified `Retry-After` for a 429, exponential
backoff `2^a` otherwise. -/
def sleepOf (r : MResp) (a : Nat) : Nat :=
  match r with
  | .timeout => 2 ^ a
  | .reply status retryAfter _ => if status = 429 then retryAfter else 2 ^ a

/-- The outcome produced when the loop body does not continue. -/
def exitOutcome (r : MResp) : MOutcome :=
  match r with
  | .timeout => .timeoutError
  | .reply status _ gqlError =>
      if 400 ≤ status then .httpError status
      else
        match gqlError with
        | some msg => .gqlError msg
        | none => .success

/-! ## C4 — duplicate-header-row detection (src/backend/data_cleaner.py,
`_is_header_row` lines 134-147, used by `clean_deals` lines 28-32)

`_is_header_row` counts, over the four (field, column-name) pairs
`("Deal Status", "Deal Status")`, `("Deal Stage", "Deal Stage")`,
`("Sector/service", "Sector/service")`, `("Owner code", "Owner code")`,
those whose value `val` satisfies `val and str(val).strip() == expected`,
and drops the record when the count is ≥ 2.  Field values coming out of
`parse_items_to_records` are strings or `None`, modelled as
`Option String`; Python `str.strip()` is modelled by `pyStrip` (ASCII
whitespace — the only whitespace occurring in this data). -/

/-- ASCII whitespace, as stripped by Python `str.strip()`. -/
def isWs (c : Char) : Bool :=
  c = ' ' || c = '\t' || c = '\n' || c = '\r' || c = '\x0b' || c = '\x0c'

/-- Strip whitespace from both ends of a character list. -/
def trimCharList (cs : List Char) : List Char :=
  ((cs.dropWhile isWs).reverse.dropWhile isWs).reverse

/-- Python `str.strip()`. -/
def pyStrip (s : String) : String := String.mk (trimCharList s.data)

/-- The four fields of a raw Deals record inspected by `_is_header_row`. -/
structure DealRaw where
  status : Option String
  stage : Option String
  sector : Option String
  owner : Option String
deriving DecidableEq, Repr

/-- `val and str(val).strip() == expected_header` for one field. -/
def trimMatch (v : Option String) (header : String) : Bool :=
  match v with
  | none => false
  | some s => s != "" && pyStrip s == header

/-- Number of fields whose value strip-matches its own column name. -/
def headerMatchCount (r : DealRaw) : Nat :=
  (if trimMatch r.status "Deal Status" then 1 else 0) +
  (if trimMatch r.stage "Deal Stage" then 1 else 0) +
  (if trimMatch r.sector "Sector/service" then 1 else 0) +
  (if trimMatch r.owner "Owner code" then 1 else 0)

/-- `_is_header_row`: at least 2 of the 4 fields strip-match their column
name. -/
def isHeaderRow (r : DealRaw) : Bool := 2 ≤ headerMatchCount r

/-- Strictly literal equality of a field with its column name —
the reading asserted by the claim ("literally equal their own column
name"). -/
def literalMatchCount (r : DealRaw) : Nat :=
  (if r.status = some "Deal Status" then 1 else 0) +
  (if r.stage = some "Deal Stage" then 1 else 0) +
  (if r.sector = some "Sector/service" then 1 else 0) +
  (if r.owner = some "Owner code" then 1 else 0)

/-- The header-row filter of `clean_deals`: kept records are exactly the
non-header rows (they then undergo the in-place field normalisations). -/
def cleanDealsKept (rs : List DealRaw) : List DealRaw :=
  rs.filter (fun r => !isHeaderRow r)

/-! ## C9 — numeric coercion and monetary fields
(src/backend/data_cleaner.py `_parse_number` lines 149-157, applied by
`clean_deals` lines 34-37 and `clean_workorders` lines 98-112)

`_parse_number(value)` does `float(str(value).replace(",", "").strip())`,
returning `None` on `ValueError`.  Python `float()` on a string accepts an
optional sign followed by a decimal literal (`digits`, `digits.`,
`.digits`, `digits.digits`, optionally `e`/`E` exponent) **or the
case-insensitive names `inf`, `infinity`, `nan`** — the latter produce
non-finite floats.  The decimal value is modelled exactly as a rational
(Python rounds to the nearest binary double and saturates to ±inf above
~1e308; no claim compares parsed values at that precision, and PEP-515
underscore grouping, which no board data contains, is not modelled).

A monetary field value before cleaning is a string or a float or null
(`Option MVal`); `clean_deals`/`clean_workorders` guard the coercion with
Python truthiness (`if val:`), so falsy values — `None`, `""`, `0.0` —
bypass `_parse_number` and survive unchanged. -/

/-- A Python float: a finite rational, an infinity, or NaN. -/
inductive PyFloat where
  | finite (q : ℚ)
  | inf
  | ninf
  | nan
deriving DecidableEq, Repr

/-- Finiteness of a Python float. -/
def PyFloat.isFinite : PyFloat → Bool
  | .finite _ => true
  | _ => false

/-- Optional leading sign; returns (isNegative, rest). -/
def parseSign : List Char → Bool × List Char
  | '+' :: r => (false, r)
  | '-' :: r => (true, r)
  | r => (false, r)

/-- Numeric value of a digit character. -/
def dval (c : Char) : Nat := c.toNat - 48

/-- Value of a digit run. -/
def digitsVal (ds : List Char) : Nat := ds.foldl (fun a c => 10 * a + dval c) 0

/-- The pieces of a parsed decimal literal: integer-part value, fractional
digits value and count, exponent sign and value. -/
structure NumParts where
  ip : Nat
  fp : Nat
  fplen : Nat
  eneg : Bool
  ev : Nat
deriving DecidableEq, Repr

/-- Parse the exponent digits after `e`/`E` (the whole rest must be
consumed). -/
def expTail (ip fp fplen : Nat) (r : List Char) : Option NumParts :=
  let sr := parseSign r
  let ds := sr.2.takeWhile Char.isDigit
  let r3 := sr.2.dropWhile Char.isDigit
  if ds = [] ∨ r3 ≠ [] then none
  else some ⟨ip, fp, fplen, sr.1, digitsVal ds⟩

/-- Parse an optional exponent suffix. -/
def expParts (ip fp fplen : Nat) (r : List Char) : Option NumParts :=
  match r with
  | [] => some ⟨ip, fp, fplen, false, 0⟩
  | 'e' :: r2 => expTail ip fp fplen r2
  | 'E' :: r2 => expTail ip fp fplen r2
  | _ => none

/-- Parse an unsigned decimal literal (entire input):
`digits`, `digits.`, `.digits` or `digits.digits`, optional exponent. -/
def numberParts (body : List Char) : Option NumParts :=
  let ip := body.takeWhile Char.isDigit
  let r1 := body.dropWhile Char.isDigit
  match r1 with
  | '.' :: r1b =>
    let fp := r1b.takeWhile Char.isDigit
    let r2 := r1b.dropWhile Char.isDigit
    if ip = [] ∧ fp = [] then none
    else expParts (digitsVal ip) (digitsVal fp) fp.length r2
  | _ => if ip = [] then none else expParts (digitsVal ip) 0 0 r1

/-- The rational value of a parsed decimal literal. -/
def partsVal (p : NumParts) : ℚ :=
  let m : ℚ := (p.ip : ℚ) + (p.fp : ℚ) / (10 : ℚ) ^ p.fplen
  if p.eneg then m / (10 : ℚ) ^ p.ev else m * (10 : ℚ) ^ p.ev

/-- Python `float()` of a string: strip whitespace, optional sign, then an
infinity/NaN name (case-insensitive) or a decimal literal. -/
def pyFloatParse (s : String) : Option PyFloat :=
  let cs := trimCharList s.data
  let sc := parseSign cs
  let lower := sc.2.map Char.toLower
  if lower = "inf".data || lower = "infinity".data then
    some (if sc.1 then .ninf else .inf)
  else if lower = "nan".data then some .nan
  else (numberParts sc.2).map (fun p => .finite (if sc.1 then -partsVal p else partsVal p))

/-- `_parse_number` on a string value: remove commas, strip, `float(...)`,
`None` on failure. -/
def parseNumberStr (s : String) : Option PyFloat :=
  pyFloatParse (String.mk (s.data.filter (fun c => c != ',')))

/-- A monetary field value as it sits in a record: a string or a float
(absent/null is `none` at the `Option MVal` level). -/
inductive MVal where
  | mstr (s : String)
  | mnum (f : PyFloat)
deriving DecidableEq, Repr

/-- Python truthiness of an optional field value (`if val:`):
`None`, `""` and `0.0` are falsy. -/
def pyTruthy : Option MVal → Bool
  | none => false
  | some (.mstr s) => s != ""
  | some (.mnum f) =>
    match f with
    | .finite q => q != 0
    | _ => true

/-- `_parse_number` on an arbitrary field value (`str(value)` of a float
round-trips, including `inf`/`nan` spellings). -/
def parseNumberVal : MVal → Option PyFloat
  | .mstr s => parseNumberStr s
  | .mnum f => some f

/-- One monetary-field cleaning step, as performed per field by
`clean_deals` (`if deal_value: record[...] = _parse_number(deal_value)`)
and `clean_workorders` (`if val: record[field] = _parse_number(val)`). -/
def cleanMoney (v : Option MVal) : Option MVal :=
  if pyTruthy v then
    match v with
    | some x => (parseNumberVal x).map .mnum
    | none => none
  else v

/-! ## Result dictionaries, truncation (C7), item-count sniffing (C10) and
the tool-execution node (C8) (src/backend/agent/graph.py)

A tool result is a Python dict from string keys to values; the values a
claim inspects are raw item lists (their entries abstracted as opaque
strings), counters, booleans and strings.  Python dict keys are unique and
iteration preserves insertion order, so a dict is modelled as an
association list with `Nodup` keys, looked up with `List.lookup`. -/

/-- A value in a tool-result dictionary. -/
inductive RVal where
  | vlist (xs : List String)
  | vnat (n : Nat)
  | vbool (b : Bool)
  | vstr (s : String)
deriving DecidableEq, Repr

/-- A tool-result dictionary. -/
abbrev ResultDict := List (String × RVal)

/-- The raw per-item list keys cut by `_truncate_result`
(`("deals", "work_orders", "lifecycle")` in graph.py line 156). -/
def itemListKeys : List String := ["deals", "work_orders", "lifecycle"]

/-- The entries `_truncate_result` emits for one input entry: a list under
an item key longer than 50 becomes its first 50 entries plus a
`{key}_truncated = True` flag and a `{key}_total` count; anything else is
copied unchanged. -/
def truncEntry : String × RVal → List (String × RVal)
  | (k, .vlist xs) =>
    if k ∈ itemListKeys ∧ 50 < xs.length then
      [(k, .vlist (xs.take 50)), (k ++ "_truncated", .vbool true),
       (k ++ "_total", .vnat xs.length)]
    else [(k, .vlist xs)]
  | kv => [kv]

/-- `_truncate_result` (graph.py lines 146-165). -/
def truncateResult (d : ResultDict) : ResultDict := d.bind truncEntry

/-! ## C8/C10 — tool dispatch (`tool_execution_node`, graph.py lines
42-133)

Per ToolCall the node builds a trace `{tool_name, parameters, status:
"running", ...}`, looks the tool up in `tool_map` (raising `Unknown tool`
on a miss), awaits it, and then:
  * on success (all five tools return dicts) completes the trace with
    `items_returned` — the first truthy value among the result's
    `total_deals`, `total_work_orders`, `common_deal_count`, default 0 —
    `duration_ms` and a `"{n} items returned in {t}ms"` summary, and
    appends one ToolMessage with the truncated result and the originating
    call id;
  * on any exception it sets the trace to `status: "error"` with
    `duration_ms` and an `"Error: ..."` summary, and appends one
    ToolMessage `{error: message}` with the call id — the loop continues
    with the next call either way.
`time.time()` is modelled as a read from a `clock : Nat → Int` (call `i`
reads `clock (2*i)` before and `clock (2*i + 1)` after); a real clock is
monotone, which is the hypothesis under which `duration_ms ≥ 0`. -/

/-- A ToolCall produced by the reasoning step. -/
structure ToolCall where
  id : String
  name : String
  args : List (String × String)
deriving DecidableEq, Repr

/-- Result of awaiting a tool: its result dict, or a raised exception. -/
inductive ExecOut where
  | ok (result : ResultDict)
  | raised (msg : String)
deriving DecidableEq, Repr

/-- Content of a ToolMessage sent back to the reasoning capability. -/
inductive MsgContent where
  | okJson (d : ResultDict)
  | errJson (msg : String)
deriving DecidableEq, Repr

/-- A ToolMessage correlated to its originating call by id. -/
structure ToolMsg where
  content : MsgContent
  toolCallId : String
deriving DecidableEq, Repr

/-- A finalized ToolTrace (the fields the claims inspect). -/
structure Trace where
  toolName : String
  params : List (String × String)
  status : String
  itemsReturned : Option RVal
  durationMs : Int
  resultSummary : String
deriving DecidableEq, Repr

/-- The five tools registered in `tool_map` (agent/tools.py `ALL_TOOLS`). -/
def knownTools : List String :=
  ["query_deals_board", "query_workorders_board", "cross_board_analysis",
   "aggregate_metrics", "get_data_summary"]

/-- Python truthiness of a result value. -/
def truthyRVal : RVal → Bool
  | .vlist xs => !xs.isEmpty
  | .vnat n => n != 0
  | .vbool b => b
  | .vstr s => s != ""

/-- Python `result.get(k) or alt`. -/
def orLookup (d : ResultDict) (k : String) (alt : RVal) : RVal :=
  match List.lookup k d with
  | some v => if truthyRVal v then v else alt
  | none => alt

/-- `items_count`: the first truthy value among `total_deals`,
`total_work_orders` and `common_deal_count`, defaulting to 0
(graph.py lines 76-81). -/
def itemsCount (d : ResultDict) : RVal :=
  orLookup d "total_deals"
    (orLookup d "total_work_orders" (orLookup d "common_deal_count" (.vnat 0)))

/-- Rendering of a result value inside the trace summary f-string. -/
def rvalStr : RVal → String
  | .vnat n => toString n
  | .vbool true => "True"
  | .vbool false => "False"
  | .vstr s => s
  | .vlist _ => "[...]"

/-- The outcome of dispatching one call: unknown tool names raise before
the tool runs. -/
def effOutcome (run : ToolCall → ExecOut) (c : ToolCall) : ExecOut :=
  if c.name ∈ knownTools then run c else .raised ("Unknown tool: " ++ c.name)

/-- Execution of one ToolCall with start/end clock readings `t0`, `t1`:
exactly one ToolMessage (truncated result or `{error: message}`, tagged
with the call id) and one finalized trace. -/
def execOne (run : ToolCall → ExecOut) (c : ToolCall) (t0 t1 : Int) : ToolMsg × Trace :=
  match effOutcome run c with
  | .ok d =>
      (⟨.okJson (truncateResult d), c.id⟩,
       ⟨c.name, c.args, "completed", some (itemsCount d), t1 - t0,
        rvalStr (itemsCount d) ++ " items returned in " ++ toString (t1 - t0) ++ "ms"⟩)
  | .raised m =>
      (⟨.errJson m, c.id⟩,
       ⟨c.name, c.args, "error", none, t1 - t0, "Error: " ++ m⟩)

/-- The sequential loop over the calls of the last reasoning step. -/
def toolExecNodeGo (run : ToolCall → ExecOut) (clock : Nat → Int) :
    Nat → List ToolCall → List (ToolMsg × Trace)
  | _, [] => []
  | i, c :: cs =>
      execOne run c (clock (2 * i)) (clock (2 * i + 1)) ::
        toolExecNodeGo run clock (i + 1) cs

/-- `tool_execution_node`: the new messages and the new traces, in call
order. -/
def toolExecutionNode (calls : List ToolCall) (run : ToolCall → ExecOut)
    (clock : Nat → Int) : List ToolMsg × List Trace :=
  ((toolExecNodeGo run clock 0 calls).map Prod.fst,
   (toolExecNodeGo run clock 0 calls).map Prod.snd)

/-! ## C6 — caveat generation (src/backend/data_cleaner.py,
`_generate_deals_caveats` lines 195-245 and `_generate_wo_caveats` lines
247-289)

Each caveat is a human-readable f-string; the embedding abstracts it to a
tagged constructor carrying the same numbers (missing count and total —
the percentage and valued count printed in the text are derived from
these).  Missingness tests mirror the source: deal value / collected
amount / billed value use `is None`; close date, closure probability,
tentative close date and billing status use falsiness (`not r.get(...)`,
i.e. `None` or `""`).  The float thresholds `total * 0.5` and
`total * 0.1` are modelled as exact rationals: `total * 0.5` is exact in
binary, and for `total * 0.1` the double rounds to a value whose
comparison against an integer count agrees with the exact `total/10` for
every realistic total (`total < 2^49`). -/

/-- The fields of a cleaned deal record inspected by caveat generation. -/
structure DealC where
  value : Option MVal
  closeDate : Option String
  prob : Option String
  tentative : Option String
deriving DecidableEq, Repr

/-- The fields of a cleaned work-order record inspected by caveat
generation. -/
structure WoC where
  collected : Option MVal
  billed : Option MVal
  billingStatus : Option String
deriving DecidableEq, Repr

/-- Deals-board caveats (tags carrying missing count and total). -/
inductive DCaveat where
  | noDeals
  | nullValues (n total : Nat)
  | nullClose (n total : Nat)
  | nullProb (n total : Nat)
  | nullTentative (n total : Nat)
deriving DecidableEq, Repr

/-- Work-order-board caveats. -/
inductive WCaveat where
  | noWos
  | nullCollected (n total : Nat)
  | nullBilled (n total : Nat)
  | nullBillingStatus (n total : Nat)
deriving DecidableEq, Repr

/-- Python falsiness of an optional string field. -/
def falsyOpt (v : Option String) : Bool :=
  match v with
  | none => true
  | some s => s = ""

/-- `_generate_deals_caveats`. -/
def dealsCaveats (rs : List DealC) : List DCaveat :=
  if rs.isEmpty then [.noDeals]
  else
    let total := rs.length
    let nv := rs.countP (fun r => r.value = none)
    let nc := rs.countP (fun r => falsyOpt r.closeDate)
    let np := rs.countP (fun r => falsyOpt r.prob)
    let nt := rs.countP (fun r => falsyOpt r.tentative)
    (if 0 < nv then [.nullValues nv total] else []) ++
    (if (nc : ℚ) > (total : ℚ) * (1 / 2) then [.nullClose nc total] else []) ++
    (if (np : ℚ) > (total : ℚ) * (1 / 2) then [.nullProb np total] else []) ++
    (if (nt : ℚ) > (total : ℚ) * (1 / 10) then [.nullTentative nt total] else [])

/-- `_generate_wo_caveats`. -/
def woCaveats (ws : List WoC) : List WCaveat :=
  if ws.isEmpty then [.noWos]
  else
    let total := ws.length
    let ncol := ws.countP (fun w => w.collected = none)
    let nbil := ws.countP (fun w => w.billed = none)
    let nbs := ws.countP (fun w => falsyOpt w.billingStatus)
    (if 0 < ncol then [.nullCollected ncol total] else []) ++
    (if 0 < nbil then [.nullBilled nbil total] else []) ++
    (if (nbs : ℚ) > (total : ℚ) * (1 / 2) then [.nullBillingStatus nbs total] else [])

/-- A cleaned deal record with no closure probability. -/
def dealNoProb : DealC := ⟨none, some "2024-01-01", none, some "2024-01-15"⟩

/-- A cleaned deal record with a closure probability. -/
def dealWithProb : DealC := ⟨none, some "2024-01-01", some "High", some "2024-01-15"⟩

/-! ## C2 — cross-board join (src/backend/agent/tools.py,
`cross_board_analysis` lines 370-425 and 470-476)

The join is computed over the cleaned, filtered records:
`deal_names_in_deals = {d.get("name") for d in cleaned_deals if d.get("name")}`
(a Python set comprehension guarded by truthiness, so `None` AND the empty
string are excluded), likewise for work orders; `common = D & W`,
`deals_only = D - W`, `wo_only = W - D`.  For each common name, the first
matching deal record is found and one lifecycle entry is built whose
financial totals sum the matching work orders' fields with `None`
contributing nothing.  Monetary values are modelled as rationals (the
pathological non-finite floats of C9 are orthogonal to the join logic).
Python set iteration order is unspecified; the model fixes first-occurrence
order, and no claim depends on the order of `lifecycle`. -/

/-- A cleaned deal record (the fields the join inspects). -/
structure DealR where
  name : Option String
  status : Option String
  stage : Option String
  value : Option ℚ
deriving DecidableEq, Repr

/-- A cleaned work-order record (the fields the join inspects). -/
structure WoR where
  dealName : Option String
  amount : Option ℚ
  billed : Option ℚ
  collected : Option ℚ
  receivable : Option ℚ
deriving DecidableEq, Repr

/-- Python truthiness filter on an optional name: `None` and `""` are
dropped. -/
def truthyStr : Option String → Option String
  | some s => if s = "" then none else some s
  | none => none

/-- `deal_names_in_deals`. -/
def dealNames (ds : List DealR) : Finset String :=
  (ds.filterMap (fun d => truthyStr d.name)).toFinset

/-- `wo_deal_names`. -/
def woNames (ws : List WoR) : Finset String :=
  (ws.filterMap (fun w => truthyStr w.dealName)).toFinset

/-- `common_deal_count`. -/
def commonDealCount (ds : List DealR) (ws : List WoR) : Nat :=
  (dealNames ds ∩ woNames ws).card

/-- `deals_only_count`. -/
def dealsOnlyCount (ds : List DealR) (ws : List WoR) : Nat :=
  (dealNames ds \ woNames ws).card

/-- `wo_only_count`. -/
def woOnlyCount (ds : List DealR) (ws : List WoR) : Nat :=
  (woNames ws \ dealNames ds).card

/-- The claim's reading of the deal-name set: all non-null names. -/
def specDealNames (ds : List DealR) : Finset String :=
  (ds.filterMap (fun d => d.name)).toFinset

/-- The claim's reading of the work-order name set. -/
def specWoNames (ws : List WoR) : Finset String :=
  (ws.filterMap (fun w => w.dealName)).toFinset

/-- One lifecycle entry of the cross-board join. -/
structure LifeEntry where
  dealName : String
  dealStatus : Option String
  dealStage : Option String
  dealValue : Option ℚ
  woCount : Nat
  woTotalAmount : ℚ
  woTotalBilled : ℚ
  woTotalCollected : ℚ
  woTotalReceivable : ℚ
deriving DecidableEq, Repr

/-- The work orders bearing a given deal name
(`[w for w in cleaned_wo if w.get("Deal name masked") == name]`). -/
def wosFor (ws : List WoR) (n : String) : List WoR :=
  ws.filter (fun w => w.dealName = some n)

/-- `sum((f(w) or 0) for w in wos if f(w) is not None)`. -/
def sumField (ws : List WoR) (f : WoR → Option ℚ) : ℚ := (ws.filterMap f).sum

/-- The lifecycle entry for one common name: the first matching deal
record's attributes plus the aggregated financials of the matching work
orders. -/
def mkEntry (ds : List DealR) (ws : List WoR) (n : String) : Option LifeEntry :=
  match ds.find? (fun d => d.name = some n) with
  | some deal =>
      some ⟨n, deal.status, deal.stage, deal.value, (wosFor ws n).length,
        sumField (wosFor ws n) (fun w => w.amount),
        sumField (wosFor ws n) (fun w => w.billed),
        sumField (wosFor ws n) (fun w => w.collected),
        sumField (wosFor ws n) (fun w => w.receivable)⟩
  | none => none

/-- The common names, in first-occurrence order. -/
def commonNamesList (ds : List DealR) (ws : List WoR) : List String :=
  ((ds.filterMap (fun d => truthyStr d.name)).dedup).filter
    (fun n => n ∈ woNames ws)

/-- The `lifecycle` list of `cross_board_analysis`. -/
def lifecycle (ds : List DealR) (ws : List WoR) : List LifeEntry :=
  (commonNamesList ds ws).filterMap (mkEntry ds ws)

/-- Deal record named Alpha. -/
def dealAlpha : DealR := ⟨some "Alpha", some "Open", none, none⟩

/-- Deal record named Beta. -/
def dealBeta : DealR := ⟨some "Beta", some "Won", none, none⟩

/-- A work order of deal Beta with amount 5. -/
def woBeta5 : WoR := ⟨some "Beta", some 5, none, none, none⟩

/-- A work order of deal Beta with amount 7. -/
def woBeta7 : WoR := ⟨some "Beta", some 7, none, none, none⟩

/-- A work order of deal Gamma with amount 100. -/
def woGamma : WoR := ⟨some "Gamma", some 100, none, none, none⟩

/-! ## C5 — date normalization (src/backend/data_cleaner.py, `_parse_date`
lines 159-183, applied by `clean_deals` lines 39-43)

`_parse_date` first rejects any value that contains a letter and does not
start with the LITERAL PREFIX `"20"` (`any(c.isalpha() ...) and not
value.startswith("20")`), then tries
`["%Y-%m-%d", "%Y-%m-%dT%H:%M:%S", "%Y-%m-%dT%H:%M:%S.%f",
"%Y-%m-%d %H:%M:%S", "%d-%m-%Y", "%d/%m/%Y", "%m/%d/%Y"]` in order on the
stripped value with `datetime.strptime`, returning the first success
rendered as `%Y-%m-%d`, else `None`.

The component parsers mirror CPython's `_strptime` regexes: `%Y` is
exactly 4 digits, `%m` is `(1[0-2]|0[1-9]|[1-9])`, `%d` is
`(3[01]|[12]\d|0[1-9]|[1-9])`, `%H` is `(2[0-3]|[0-1]\d|\d)`, `%M`/`%S`
are `([0-5]\d|\d)`, `%f` is `\d{1,6}`, a space matches `\s+`, the literal
`T` matches case-insensitively, the whole string must be consumed, and
`datetime(...)` construction additionally validates the calendar day and
`year ≥ 1`.  The alternations are ordered and the groups are separated by
non-digit literals, so greedy first-alternative matching (no backtracking)
is equivalent.  Characters are ASCII (`isalpha`, `\d` are modelled as their
ASCII ranges; the board data is ASCII). -/

/-- ASCII letter (Python `str.isalpha` restricted to ASCII). -/
def isAlphaA (c : Char) : Bool :=
  (97 ≤ c.toNat && c.toNat ≤ 122) || (65 ≤ c.toNat && c.toNat ≤ 90)

/-- ASCII digit (regex `\d`). -/
def isDigitA (c : Char) : Bool := 48 ≤ c.toNat && c.toNat ≤ 57

/-- `any(c.isalpha() for c in value)`. -/
def hasAlphaL (cs : List Char) : Bool := cs.any isAlphaA

/-- `value.startswith("20")`. -/
def starts20 (cs : List Char) : Bool :=
  match cs with
  | a :: b :: _ => a = '2' && b = '0'
  | _ => false

/-- The claim's reading: the value starts with a 4-digit year. -/
def starts4digit (cs : List Char) : Bool :=
  match cs with
  | a :: b :: c :: d :: _ => isDigitA a && isDigitA b && isDigitA c && isDigitA d
  | _ => false

/-- `%Y`: exactly four digits. -/
def p4Y : List Char → Option (Nat × List Char)
  | a :: b :: c :: d :: rest =>
    if isDigitA a && isDigitA b && isDigitA c && isDigitA d then
      some (1000 * dval a + 100 * dval b + 10 * dval c + dval d, rest)
    else none
  | _ => none

/-- `%m`: `(1[0-2]|0[1-9]|[1-9])`. -/
def pMonth : List Char → Option (Nat × List Char)
  | a :: b :: rest =>
    if a = '1' && ('0' ≤ b && b ≤ '2') then some (10 + dval b, rest)
    else if a = '0' && (isDigitA b && b ≠ '0') then some (dval b, rest)
    else if isDigitA a && a ≠ '0' then some (dval a, b :: rest)
    else none
  | [a] => if isDigitA a && a ≠ '0' then some (dval a, []) else none
  | [] => none

/-- `%d`: `(3[01]|[12]\d|0[1-9]|[1-9])`. -/
def pDay : List Char → Option (Nat × List Char)
  | a :: b :: rest =>
    if a = '3' && (b = '0' || b = '1') then some (30 + dval b, rest)
    else if (a = '1' || a = '2') && isDigitA b then some (10 * dval a + dval b, rest)
    else if a = '0' && (isDigitA b && b ≠ '0') then some (dval b, rest)
    else if isDigitA a && a ≠ '0' then some (dval a, b :: rest)
    else none
  | [a] => if isDigitA a && a ≠ '0' then some (dval a, []) else none
  | [] => none

/-- `%H`: `(2[0-3]|[0-1]\d|\d)`. -/
def pHour : List Char → Option (Nat × List Char)
  | a :: b :: rest =>
    if a = '2' && ('0' ≤ b && b ≤ '3') then some (20 + dval b, rest)
    else if (a = '0' || a = '1') && isDigitA b then some (10 * dval a + dval b, rest)
    else if isDigitA a then some (dval a, b :: rest)
    else none
  | [a] => if isDigitA a then some (dval a, []) else none
  | [] => none

/-- `%M` and `%S`: `([0-5]\d|\d)`. -/
def pMinSec : List Char → Option (Nat × List Char)
  | a :: b :: rest =>
    if ('0' ≤ a && a ≤ '5') && isDigitA b then some (10 * dval a + dval b, rest)
    else if isDigitA a then some (dval a, b :: rest)
    else none
  | [a] => if isDigitA a then some (dval a, []) else none
  | [] => none

/-- A literal separator character. -/
def pLit (c : Char) : List Char → Option (List Char)
  | a :: rest => if a = c then some rest else none
  | [] => none

/-- The literal `T` (strptime compiles its regex with `IGNORECASE`). -/
def pLitT : List Char → Option (List Char)
  | a :: rest => if a = 'T' || a = 't' then some rest else none
  | [] => none

/-- A space in the format: `\s+`. -/
def pWs1 : List Char → Option (List Char)
  | a :: rest => if isWs a then some (rest.dropWhile isWs) else none
  | [] => none

/-- `%f`: `\d{1,6}`, with nothing allowed to remain after it. -/
def pFrac (cs : List Char) : Option (List Char) :=
  let ds := cs.takeWhile isDigitA
  if 1 ≤ ds.length && ds.length ≤ 6 then some (cs.drop ds.length) else none

/-- Gregorian leap year. -/
def isLeap (y : Nat) : Bool := (y % 4 = 0 && y % 100 ≠ 0) || y % 400 = 0

/-- Days in a month. -/
def daysInMonth (y m : Nat) : Nat :=
  if m = 2 then (if isLeap y then 29 else 28)
  else if m = 4 ∨ m = 6 ∨ m = 9 ∨ m = 11 then 30
  else 31

/-- `datetime(...)` construction succeeds: `MINYEAR ≤ year` and the day
exists in the month (month and day lower bounds are enforced by the
regexes). -/
def validDate (y m d : Nat) : Bool := 1 ≤ y && d ≤ daysInMonth y m

/-- `dt.strftime("%Y-%m-%d")`: zero-padded rendering. -/
def pad2 (n : Nat) : List Char := [Nat.digitChar (n / 10 % 10), Nat.digitChar (n % 10)]

/-- Four-digit zero-padded year. -/
def pad4 (n : Nat) : List Char :=
  [Nat.digitChar (n / 1000 % 10), Nat.digitChar (n / 100 % 10),
   Nat.digitChar (n / 10 % 10), Nat.digitChar (n % 10)]

/-- ISO calendar-date rendering. -/
def renderISO (y m d : Nat) : String :=
  String.mk (pad4 y ++ '-' :: (pad2 m ++ '-' :: pad2 d))

/-- `"%Y-%m-%d"`. -/
def fYmd (cs : List Char) : Option (Nat × Nat × Nat) := do
  let (y, r1) ← p4Y cs
  let r2 ← pLit '-' r1
  let (m, r3) ← pMonth r2
  let r4 ← pLit '-' r3
  let (d, r5) ← pDay r4
  if r5 = [] && validDate y m d then pure (y, m, d) else none

/-- `"%Y-%m-%dT%H:%M:%S"`. -/
def fYmdT (cs : List Char) : Option (Nat × Nat × Nat) := do
  let (y, r1) ← p4Y cs
  let r2 ← pLit '-' r1
  let (m, r3) ← pMonth r2
  let r4 ← pLit '-' r3
  let (d, r5) ← pDay r4
  let r6 ← pLitT r5
  let (_, r7) ← pHour r6
  let r8 ← pLit ':' r7
  let (_, r9) ← pMinSec r8
  let r10 ← pLit ':' r9
  let (_, r11) ← pMinSec r10
  if r11 = [] && validDate y m d then pure (y, m, d) else none

/-- `"%Y-%m-%dT%H:%M:%S.%f"`. -/
def fYmdTf (cs : List Char) : Option (Nat × Nat × Nat) := do
  let (y, r1) ← p4Y cs
  let r2 ← pLit '-' r1
  let (m, r3) ← pMonth r2
  let r4 ← pLit '-' r3
  let (d, r5) ← pDay r4
  let r6 ← pLitT r5
  let (_, r7) ← pHour r6
  let r8 ← pLit ':' r7
  let (_, r9) ← pMinSec r8
  let r10 ← pLit ':' r9
  let (_, r11) ← pMinSec r10
  let r12 ← pLit '.' r11
  let r13 ← pFrac r12
  if r13 = [] && validDate y m d then pure (y, m, d) else none

/-- `"%Y-%m-%d %H:%M:%S"`. -/
def fYmdSp (cs : List Char) : Option (Nat × Nat × Nat) := do
  let (y, r1) ← p4Y cs
  let r2 ← pLit '-' r1
  let (m, r3) ← pMonth r2
  let r4 ← pLit '-' r3
  let (d, r5) ← pDay r4
  let r6 ← pWs1 r5
  let (_, r7) ← pHour r6
  let r8 ← pLit ':' r7
  let (_, r9) ← pMinSec r8
  let r10 ← pLit ':' r9
  let (_, r11) ← pMinSec r10
  if r11 = [] && validDate y m d then pure (y, m, d) else none

/-- Two 1-2 digit groups and a 4-digit year, separated by `sep`
(the shared shape of `"%d-%m-%Y"`, `"%d/%m/%Y"`, `"%m/%d/%Y"`). -/
def fTwoSep (p1 p2 : List Char → Option (Nat × List Char)) (sep : Char)
    (cs : List Char) : Option (Nat × Nat × Nat) := do
  let (v1, r1) ← p1 cs
  let r2 ← pLit sep r1
  let (v2, r3) ← p2 r2
  let r4 ← pLit sep r3
  let (y, r5) ← p4Y r4
  if r5 = [] then pure (v1, v2, y) else none

/-- `"%d-%m-%Y"`. -/
def fDmyDash (cs : List Char) : Option (Nat × Nat × Nat) :=
  (fTwoSep pDay pMonth '-' cs).bind
    (fun t => if validDate t.2.2 t.2.1 t.1 then some (t.2.2, t.2.1, t.1) else none)

/-- `"%d/%m/%Y"`. -/
def fDmySlash (cs : List Char) : Option (Nat × Nat × Nat) :=
  (fTwoSep pDay pMonth '/' cs).bind
    (fun t => if validDate t.2.2 t.2.1 t.1 then some (t.2.2, t.2.1, t.1) else none)

/-- `"%m/%d/%Y"`. -/
def fMdySlash (cs : List Char) : Option (Nat × Nat × Nat) :=
  (fTwoSep pMonth pDay '/' cs).bind
    (fun t => if validDate t.2.2 t.1 t.2.1 then some (t.2.2, t.1, t.2.1) else none)

/-- The fixed ordered format list: first success wins. -/
def firstFormat (cs : List Char) : Option (Nat × Nat × Nat) :=
  fYmd cs <|> fYmdT cs <|> fYmdTf cs <|> fYmdSp cs <|>
    fDmyDash cs <|> fDmySlash cs <|> fMdySlash cs

/-- `_parse_date`: the letter guard with its literal `"20"` prefix test,
then the ordered format list on the stripped value. -/
def parse_date (s : String) : Option String :=
  if s = "" then none
  else if hasAlphaL s.data && !starts20 s.data then none
  else (firstFormat (trimCharList s.data)).map (fun t => renderISO t.1 t.2.1 t.2.2)

/-- The claim's procedure: same format list, but rejecting exactly the
letter-containing strings that do not start with a 4-digit year. -/
def specNormalizeDate (s : String) : Option String :=
  if s = "" then none
  else if hasAlphaL s.data && !starts4digit s.data then none
  else (firstFormat (trimCharList s.data)).map (fun t => renderISO t.1 t.2.1 t.2.2)

example : parse_date "2023-01-15" = some "2023-01-15" := by decide

example : parse_date "01/02/2023" = some "2023-02-01" := by decide

example : parse_date "1999-01-02T03:04:05" = none := by decide

example : specNormalizeDate "1999-01-02T03:04:05" = some "1999-01-02" := by decide

/-! ### Theorems -/

/-- Unfolding of `winRatePct` when the decided count is positive. -/
theorem winRatePct_pos (ss : List (Option String)) (h : 0 < wonCount ss + deadCount ss) :
    winRatePct ss =
      some (roundTo1 ((wonCount ss : ℚ) / ((wonCount ss : ℚ) + (deadCount ss : ℚ)) * 100)) := by
  simp only [winRatePct]
  rw [if_pos h]

/-- Unfolding of `winRatePct` when the decided count is zero. -/
theorem winRatePct_zero (ss : List (Option String)) (h : wonCount ss + deadCount ss = 0) :
    winRatePct ss = none := by
  simp only [winRatePct]
  rw [if_neg (by omega)]

/-- The rounded percentage hits 100 exactly when `1999 * dead ≤ won`
(including the intended `dead = 0, won > 0` case, but also e.g.
`won = 2000, dead = 1`). -/
theorem roundTo1_eq_100_iff (w d : Nat) (h : 0 < w + d) :
    roundTo1 ((w : ℚ) / ((w : ℚ) + (d : ℚ)) * 100) = 100 ↔ 1999 * d ≤ w := by
  have hD : (0 : ℚ) < (w : ℚ) + (d : ℚ) := by
    have h0 : (0 : ℚ) < ((w + d : ℕ) : ℚ) := by exact_mod_cast h
    push_cast at h0
    linarith
  have hx : ((w : ℚ) / ((w : ℚ) + (d : ℚ)) * 100) * 10 = 1000 * (w : ℚ) / ((w : ℚ) + (d : ℚ)) := by
    field_simp
    ring
  rw [roundTo1, hx, round_eq, div_eq_iff (by norm_num : (10 : ℚ) ≠ 0)]
  rw [show (100 : ℚ) * 10 = ((1000 : ℤ) : ℚ) by norm_num, Int.cast_inj, Int.floor_eq_iff]
  push_cast
  constructor
  · rintro ⟨h1, _⟩
    have h2 : (1000 - 1/2 : ℚ) ≤ 1000 * (w : ℚ) / ((w : ℚ) + (d : ℚ)) := by linarith
    rw [le_div_iff₀ hD] at h2
    have h3 : (1999 : ℚ) * (d : ℚ) ≤ (w : ℚ) := by linarith
    exact_mod_cast h3
  · intro hwd
    have hq : (1999 : ℚ) * (d : ℚ) ≤ (w : ℚ) := by exact_mod_cast hwd
    constructor
    · have h2 : (1000 - 1/2 : ℚ) ≤ 1000 * (w : ℚ) / ((w : ℚ) + (d : ℚ)) := by
        rw [le_div_iff₀ hD]
        linarith
      linarith
    · have h2 : 1000 * (w : ℚ) / ((w : ℚ) + (d : ℚ)) ≤ 1000 := by
        rw [div_le_iff₀ hD]
        have : (0 : ℚ) ≤ (d : ℚ) := by positivity
        nlinarith
      linarith

/-- **C1 (amended).** For every list of `Deal Status` values (the shared
win-rate computation of `query_deals_board` and of each `aggregate_metrics`
`win_rate` group): the reported rate is `round(won/(won+dead)*100, 1)` when
`won + dead > 0` and `null` exactly when `won + dead = 0`; records whose
status is neither `"Won"` nor `"Dead"` (`"Open"`, `"On Hold"`, missing, …)
never affect the rate; the rate equals 100 iff `won + dead > 0` and
`1999 * dead ≤ won` — so `dead = 0 ∧ won > 0` gives 100, but contrary to the
original claim the rate can also be 100 with `dead > 0` (e.g. `won = 2000`,
`dead = 1`). -/
theorem c1_win_rate_amended (ss ts : List (Option String))
    (hts : ∀ t ∈ ts, t ≠ some "Won" ∧ t ≠ some "Dead") :
    (winRatePct ss = none ↔ wonCount ss + deadCount ss = 0) ∧
    (0 < wonCount ss + deadCount ss →
      winRatePct ss =
        some (roundTo1 ((wonCount ss : ℚ) / ((wonCount ss : ℚ) + (deadCount ss : ℚ)) * 100))) ∧
    (winRatePct ss = some 100 ↔
      0 < wonCount ss + deadCount ss ∧ 1999 * deadCount ss ≤ wonCount ss) ∧
    (deadCount ss = 0 → 0 < wonCount ss → winRatePct ss = some 100) ∧
    winRatePct (ss ++ ts) = winRatePct ss := by
  have hcw : wonCount (ss ++ ts) = wonCount ss := by
    have hz : ts.countP (· = some "Won") = 0 := by
      rw [List.countP_eq_zero]
      intro a ha
      simpa using (hts a ha).1
    simp [wonCount, List.countP_append, hz]
  have hcd : deadCount (ss ++ ts) = deadCount ss := by
    have hz : ts.countP (· = some "Dead") = 0 := by
      rw [List.countP_eq_zero]
      intro a ha
      simpa using (hts a ha).2
    simp [deadCount, List.countP_append, hz]
  refine ⟨?_, winRatePct_pos ss, ?_, ?_, ?_⟩
  · constructor
    · intro hnone
      by_contra hne
      rw [winRatePct_pos ss (by omega)] at hnone
      simp at hnone
    · intro hz
      exact winRatePct_zero ss hz
  · constructor
    · intro h100
      by_cases hpos : 0 < wonCount ss + deadCount ss
      · refine ⟨hpos, ?_⟩
        rw [winRatePct_pos ss hpos] at h100
        have := Option.some_inj.mp h100
        exact (roundTo1_eq_100_iff _ _ hpos).mp this
      · rw [winRatePct_zero ss (by omega)] at h100
        exact absurd h100 (by simp)
    · rintro ⟨hpos, hge⟩
      rw [winRatePct_pos ss hpos]
      exact congrArg some ((roundTo1_eq_100_iff _ _ hpos).mpr hge)
  · intro hd0 hw
    have hpos : 0 < wonCount ss + deadCount ss := by omega
    rw [winRatePct_pos ss hpos]
    exact congrArg some ((roundTo1_eq_100_iff _ _ hpos).mpr (by omega))
  · by_cases hpos : 0 < wonCount ss + deadCount ss
    · rw [winRatePct_pos ss hpos, winRatePct_pos (ss ++ ts) (by omega), hcw, hcd]
    · rw [winRatePct_zero ss (by omega), winRatePct_zero (ss ++ ts) (by omega)]

/-- **C1 (counterexample).** A set of 2000 `"Won"` and one `"Dead"` deal has
`dead = 1 ≠ 0` yet reports `win_rate_pct = 100` (since
`round(2000/2001*100, 1) = 100.0`), refuting "the rate equals 100 only when
`dead == 0` and `won > 0`". -/
theorem c1_win_rate_counterexample :
    deadCount (List.replicate 2000 (some "Won") ++ [some "Dead"]) = 1 ∧
    winRatePct (List.replicate 2000 (some "Won") ++ [some "Dead"]) = some 100 := by
  have hw : wonCount (List.replicate 2000 (some "Won") ++ [some "Dead"]) = 2000 := by
    rw [wonCount, List.countP_append, List.countP_replicate]
    simp [List.countP_cons]
  have hd : deadCount (List.replicate 2000 (some "Won") ++ [some "Dead"]) = 1 := by
    rw [deadCount, List.countP_append, List.countP_replicate]
    simp [List.countP_cons]
  refine ⟨hd, ?_⟩
  rw [winRatePct_pos _ (by rw [hw, hd]; norm_num), hw, hd]
  exact congrArg some ((roundTo1_eq_100_iff 2000 1 (by norm_num)).mpr (by norm_num))

/-- Witness for `c1_win_rate_amended` at a concrete input: one `"Won"` deal
with an `"Open"` and an `"On Hold"` deal alongside. -/
theorem c1_win_rate_witness :
    winRatePct ([some "Won"] ++ [some "Open", some "On Hold"]) = winRatePct [some "Won"] ∧
    winRatePct [some "Won"] = some 100 := by
  have h := c1_win_rate_amended [some "Won"] [some "Open", some "On Hold"] (by decide)
  exact ⟨h.2.2.2.2, h.2.2.2.1 (by decide) (by decide)⟩

/-- The sleeps performed by the loop only grow the accumulator. -/
theorem executeQueryGo_sleeps (rs : List MResp) :
    ∀ a sleeps, ∃ rest, (executeQueryGo rs a sleeps).2 = sleeps ++ rest := by
  induction rs with
  | nil => exact fun a sleeps => ⟨[], by simp [executeQueryGo]⟩
  | cons r rest ih =>
    intro a sleeps
    cases r with
    | timeout =>
      by_cases h2 : a < 2
      · obtain ⟨more, hm⟩ := ih (a + 1) (sleeps ++ [2 ^ a])
        exact ⟨2 ^ a :: more, by simp [executeQueryGo, h2, hm]⟩
      · exact ⟨[], by simp [executeQueryGo, h2]⟩
    | reply s ra e =>
      by_cases hs : s = 429
      · obtain ⟨more, hm⟩ := ih (a + 1) (sleeps ++ [ra])
        exact ⟨ra :: more, by simp [executeQueryGo, hs, hm]⟩
      · by_cases h4 : 400 ≤ s
        · by_cases h52 : a < 2 ∧ 500 ≤ s
          · obtain ⟨more, hm⟩ := ih (a + 1) (sleeps ++ [2 ^ a])
            exact ⟨2 ^ a :: more, by simp [executeQueryGo, hs, h4, h52, hm]⟩
          · exact ⟨[], by simp [executeQueryGo, hs, h4, h52]⟩
        · cases e with
          | some msg => exact ⟨[], by simp [executeQueryGo, hs, h4]⟩
          | none => exact ⟨[], by simp [executeQueryGo, hs, h4]⟩

/-- One unfolding of the loop body: continue (consuming the attempt and
sleeping) or exit. -/
theorem executeQueryGo_cons (r : MResp) (rest : List MResp) (a : Nat) (sleeps : List Nat) :
    executeQueryGo (r :: rest) a sleeps =
      if continuesAt r a then executeQueryGo rest (a + 1) (sleeps ++ [sleepOf r a])
      else (exitOutcome r, sleeps) := by
  cases r with
  | timeout =>
    by_cases h2 : a < 2 <;> simp [executeQueryGo, continuesAt, sleepOf, exitOutcome, h2]
  | reply s ra e =>
    by_cases hs : s = 429
    · subst hs
      simp [executeQueryGo, continuesAt, sleepOf, exitOutcome]
    · by_cases h5 : a < 2 ∧ 500 ≤ s
      · have h4 : 400 ≤ s := by omega
        simp [executeQueryGo, continuesAt, sleepOf, exitOutcome, hs, h4, h5]
      · by_cases h4 : 400 ≤ s
        · simp [executeQueryGo, continuesAt, sleepOf, exitOutcome, hs, h4, h5]
        · have h5f : ¬ (500 ≤ s) := by omega
          cases e <;>
            simp [executeQueryGo, continuesAt, sleepOf, exitOutcome, hs, h4, h5f]

/-- An exiting loop body never produces the exhaustion outcome. -/
theorem exitOutcome_ne_max (r : MResp) : exitOutcome r ≠ .maxRetriesExceeded := by
  cases r with
  | timeout => simp [exitOutcome]
  | reply s ra e =>
    by_cases h4 : 400 ≤ s
    · simp [exitOutcome, h4]
    · cases e <;> simp [exitOutcome, h4]

/-- At the last attempt, only a 429 continues. -/
theorem continuesAt_two (r : MResp) : continuesAt r 2 ↔ isRateLimited r := by
  cases r <;> simp [continuesAt, isRateLimited]

/-- **C3 (counterexample).** Three consecutive rate-limit responses (each
with `Retry-After: 5`) drive `execute_query` to its retry-exhaustion
failure, sleeping 5s before each of the three attempts is consumed —
refuting "a rate-limit response is never counted against the 3-attempt
retry budget" and "the retry-exhaustion failure is reached only through
non-rate-limit transient failures". -/
theorem c3_rate_limit_counterexample :
    executeQuery (.reply 429 5 none) (.reply 429 5 none) (.reply 429 5 none) =
      (.maxRetriesExceeded, [5, 5, 5]) := by
  decide

/-- **C3 (amended).** A rate-limit response is retried after the
server-specified delay but DOES consume one of the 3 attempts: the
retry-exhaustion failure (`max retries exceeded`) is reached exactly when
the first two attempts continue (rate-limit, timeout, or 5xx) and the
third response is itself rate-limited; and whenever the first response is
rate-limited with delay `ra`, the first sleep performed is `ra`. -/
theorem c3_rate_limit_amended (r0 r1 r2 : MResp) :
    ((executeQuery r0 r1 r2).1 = .maxRetriesExceeded ↔
      continuesAt r0 0 ∧ continuesAt r1 1 ∧ isRateLimited r2) ∧
    (∀ ra e, r0 = .reply 429 ra e → ∃ rest, (executeQuery r0 r1 r2).2 = ra :: rest) := by
  constructor
  · rw [executeQuery, executeQueryGo_cons]
    by_cases c0 : continuesAt r0 0
    · rw [if_pos c0, executeQueryGo_cons]
      by_cases c1 : continuesAt r1 1
      · rw [if_pos c1, executeQueryGo_cons]
        by_cases c2 : continuesAt r2 2
        · rw [if_pos c2]
          simp [executeQueryGo, c0, c1, (continuesAt_two r2).mp c2]
        · rw [if_neg c2]
          simp [exitOutcome_ne_max r2, (continuesAt_two r2).not.mp c2]
      · rw [if_neg c1]
        simp [exitOutcome_ne_max r1, c1]
    · rw [if_neg c0]
      simp [exitOutcome_ne_max r0, c0]
  · rintro ra e rfl
    obtain ⟨rest, hr⟩ := executeQueryGo_sleeps [r1, r2] 1 ([] ++ [ra])
    refine ⟨rest, ?_⟩
    have hstep : executeQuery (.reply 429 ra e) r1 r2 =
        executeQueryGo [r1, r2] 1 ([] ++ [ra]) := by
      rw [executeQuery, executeQueryGo_cons]
      rw [if_pos (by simp [continuesAt] : continuesAt (.reply 429 ra e) 0)]
      simp [sleepOf]
    rw [hstep, hr]
    simp

/-- Witness for `c3_rate_limit_amended`: a timeout, then a 500, then a 429
reach retry exhaustion; and a 429 first response logs its delay first. -/
theorem c3_rate_limit_witness :
    (executeQuery .timeout (.reply 500 0 none) (.reply 429 7 none)).1 =
      .maxRetriesExceeded ∧
    ∃ rest, (executeQuery (.reply 429 9 none) .timeout .timeout).2 = 9 :: rest := by
  constructor
  · exact (c3_rate_limit_amended .timeout (.reply 500 0 none) (.reply 429 7 none)).1.mpr
      (by refine ⟨?_, ?_, ?_⟩ <;> simp [continuesAt, isRateLimited])
  · exact (c3_rate_limit_amended (.reply 429 9 none) .timeout .timeout).2 9 none rfl

/-- **C4 (counterexample).** A record whose `Deal Status` is
`" Deal Status "` and whose `Deal Stage` is `" Deal Stage "` (surrounding
whitespace, so neither field literally equals its column name) is
nevertheless dropped, because `_is_header_row` strips before comparing —
refuting "dropped if and only if at least 2 of the four fields literally
equal their own column name". -/
theorem c4_header_row_counterexample :
    isHeaderRow ⟨some " Deal Status ", some " Deal Stage ", none, none⟩ = true ∧
    literalMatchCount ⟨some " Deal Status ", some " Deal Stage ", none, none⟩ = 0 := by
  decide

/-- **C4 (amended).** During deals cleaning a record is dropped as a
duplicate header row iff at least 2 of the four fields `Deal Status`,
`Deal Stage`, `Sector/service`, `Owner code` equal their own column name
after stripping surrounding whitespace (literal equality is a special
case, so the claim's positive examples still hold); `clean_deals` keeps
exactly the non-header rows. -/
theorem c4_header_row_amended (r : DealRaw) (rs : List DealRaw) :
    (isHeaderRow r = true ↔ 2 ≤ headerMatchCount r) ∧
    (2 ≤ literalMatchCount r → isHeaderRow r = true) ∧
    (r ∈ cleanDealsKept rs ↔ r ∈ rs ∧ isHeaderRow r = false) := by
  refine ⟨by simp [isHeaderRow], ?_, ?_⟩
  · intro hlit
    have k1 : r.status = some "Deal Status" → trimMatch r.status "Deal Status" = true := by
      intro h
      rw [h]
      decide
    have k2 : r.stage = some "Deal Stage" → trimMatch r.stage "Deal Stage" = true := by
      intro h
      rw [h]
      decide
    have k3 : r.sector = some "Sector/service" →
        trimMatch r.sector "Sector/service" = true := by
      intro h
      rw [h]
      decide
    have k4 : r.owner = some "Owner code" → trimMatch r.owner "Owner code" = true := by
      intro h
      rw [h]
      decide
    simp only [isHeaderRow, headerMatchCount, decide_eq_true_eq]
    simp only [literalMatchCount] at hlit
    by_cases h1 : r.status = some "Deal Status" <;>
      by_cases h2 : r.stage = some "Deal Stage" <;>
      by_cases h3 : r.sector = some "Sector/service" <;>
      by_cases h4 : r.owner = some "Owner code" <;>
      simp only [h1, h2, h3, h4, if_pos, if_neg, if_true, if_false] at hlit ⊢ <;>
      first
        | omega
        | (try rw [k1 h1]) <;> (try rw [k2 h2]) <;> (try rw [k3 h3]) <;> (try rw [k4 h4]) <;>
          simp_all <;> omega
  · simp [cleanDealsKept, List.mem_filter]

/-- Witness for `c4_header_row_amended`: the claim's own positive and
negative examples.  A record with both `Deal Status` and `Deal Stage`
literally equal to their column names is dropped; a record with exactly
one literal match is kept. -/
theorem c4_header_row_witness :
    isHeaderRow ⟨some "Deal Status", some "Deal Stage", none, none⟩ = true ∧
    (⟨some "Deal Status", some "x", some "y", some "z"⟩ : DealRaw) ∈
      cleanDealsKept [⟨some "Deal Status", some "x", some "y", some "z"⟩] := by
  constructor
  · exact (c4_header_row_amended ⟨some "Deal Status", some "Deal Stage", none, none⟩ []).2.1
      (by decide)
  · exact ((c4_header_row_amended ⟨some "Deal Status", some "x", some "y", some "z"⟩
      [⟨some "Deal Status", some "x", some "y", some "z"⟩]).2.2).mpr
      ⟨by simp, by decide⟩

/-- **C9 (counterexample).** The raw string `"inf"` passes the coercion and
yields the non-finite float `inf`, refuting "every monetary field holds
either a finite float or null … for every possible raw string input to the
numeric coercion"; and the falsy raw string `""` bypasses the coercion
entirely and survives cleaning as a string. -/
theorem c9_monetary_counterexample :
    parseNumberStr "inf" = some .inf ∧
    PyFloat.isFinite .inf = false ∧
    cleanMoney (some (.mstr "")) = some (.mstr "") := by
  refine ⟨?_, by decide, by decide⟩
  have h : (parseSign (trimCharList
      (String.mk ("inf".data.filter (fun c => c != ','))).data)).2.map Char.toLower =
      "inf".data := by decide
  simp [parseNumberStr, pyFloatParse, h]
  decide

/-- **C9 (amended).** After cleaning, a monetary field never holds a
non-empty string: every truthy value is replaced by `_parse_number`'s
result, which is always a float or null (commas stripped, non-numeric text
rejected) — but the float can be non-finite for inputs such as `"inf"` or
`"nan"` that Python `float()` accepts, and the falsy raw value `""` (never
produced by the board parser for column fields, but the only string that
can slip through) is left untouched. -/
theorem c9_monetary_amended (v : Option MVal) :
    (∀ s, cleanMoney v = some (.mstr s) → s = "" ∧ v = some (.mstr "")) ∧
    (pyTruthy v = true → cleanMoney v = none ∨ ∃ f, cleanMoney v = some (.mnum f)) ∧
    parseNumberStr "1,234" = some (.finite 1234) ∧
    parseNumberStr "N/A" = none ∧
    parseNumberStr "12.5" = some (.finite (25 / 2)) := by
  refine ⟨?_, ?_, ?_, ?_, ?_⟩
  · intro s hs
    cases v with
    | none => simp [cleanMoney, pyTruthy] at hs
    | some x =>
      cases x with
      | mstr s2 =>
        by_cases he : s2 = ""
        · subst he
          simp [cleanMoney, pyTruthy] at hs
          try simp [hs]
        · simp [cleanMoney, pyTruthy, he] at hs
      | mnum f =>
        by_cases ht : pyTruthy (some (.mnum f)) = true
        · simp [cleanMoney, ht] at hs
        · simp [cleanMoney, ht] at hs
  · intro ht
    cases v with
    | none => simp [pyTruthy] at ht
    | some x =>
      cases hp : parseNumberVal x with
      | none => exact Or.inl (by simp [cleanMoney, ht, hp])
      | some f => exact Or.inr ⟨f, by simp [cleanMoney, ht, hp]⟩
  · have h : numberParts (parseSign (trimCharList
        (String.mk ("1,234".data.filter (fun c => c != ','))).data)).2 =
        some ⟨1234, 0, 0, false, 0⟩ := by decide
    have hsgn : (parseSign (trimCharList
        (String.mk ("1,234".data.filter (fun c => c != ','))).data)).1 = false := by decide
    simp only [parseNumberStr, pyFloatParse, h, hsgn]
    rw [if_neg (by decide), if_neg (by decide)]
    simp [partsVal]
  · decide
  · have h : numberParts (parseSign (trimCharList
        (String.mk ("12.5".data.filter (fun c => c != ','))).data)).2 =
        some ⟨12, 5, 1, false, 0⟩ := by decide
    have hsgn : (parseSign (trimCharList
        (String.mk ("12.5".data.filter (fun c => c != ','))).data)).1 = false := by decide
    simp only [parseNumberStr, pyFloatParse, h, hsgn]
    rw [if_neg (by decide), if_neg (by decide)]
    simp [partsVal]
    norm_num

/-- Witness for `c9_monetary_amended`: a truthy non-numeric string cleans
to null (a float-or-null value, never a string). -/
theorem c9_monetary_witness :
    cleanMoney (some (.mstr "abc")) = none ∨
    ∃ f, cleanMoney (some (.mstr "abc")) = some (.mnum f) :=
  (c9_monetary_amended (some (.mstr "abc"))).2.1 (by decide)

theorem truncateResult_cons (kv : String × RVal) (rest : ResultDict) :
    truncateResult (kv :: rest) = truncEntry kv ++ truncateResult rest := rfl

theorem lookup_append_dict (k : String) (l1 l2 : ResultDict) :
    List.lookup k (l1 ++ l2) = (List.lookup k l1).or (List.lookup k l2) := by
  induction l1 with
  | nil => simp [List.lookup]
  | cons kv rest ih =>
    obtain ⟨k0, v0⟩ := kv
    simp only [List.cons_append, List.lookup]
    cases h : (k == k0) <;> simp [ih]

/-- No item key is a flag key of any item key. -/
theorem itemKey_ne_flag (k k0 : String) (hk : k ∈ itemListKeys)
    (hk0 : k0 ∈ itemListKeys) :
    k ≠ k0 ++ "_truncated" ∧ k ≠ k0 ++ "_total" := by
  fin_cases hk <;> fin_cases hk0 <;> exact ⟨by decide, by decide⟩

/-- Flag keys of distinct item keys are distinct, and the two flag kinds
never coincide. -/
theorem flag_key_ne (k k0 : String) (hk : k ∈ itemListKeys)
    (hk0 : k0 ∈ itemListKeys) (hne : k0 ≠ k) :
    k ++ "_truncated" ≠ k0 ++ "_truncated" ∧ k ++ "_total" ≠ k0 ++ "_total" ∧
    k ++ "_truncated" ≠ k0 ++ "_total" ∧ k ++ "_total" ≠ k0 ++ "_truncated" := by
  fin_cases hk <;> fin_cases hk0 <;>
    first
      | exact absurd rfl hne
      | exact ⟨by decide, by decide, by decide, by decide⟩

/-- A key different from an entry's key and from its potential flag keys is
not bound by that entry's truncation output. -/
theorem lookup_truncEntry_none (x k0 : String) (v0 : RVal) (hx0 : x ≠ k0)
    (hxf : k0 ∈ itemListKeys → x ≠ k0 ++ "_truncated" ∧ x ≠ k0 ++ "_total") :
    List.lookup x (truncEntry (k0, v0)) = none := by
  have hb : (x == k0) = false := by
    simp [hx0]
  cases v0 with
  | vlist xs =>
    by_cases hbig : k0 ∈ itemListKeys ∧ 50 < xs.length
    · obtain ⟨hf1, hf2⟩ := hxf hbig.1
      have hb1 : (x == k0 ++ "_truncated") = false := by simp [hf1]
      have hb2 : (x == k0 ++ "_total") = false := by simp [hf2]
      simp only [truncEntry, if_pos hbig]
      simp [List.lookup, hb, hb1, hb2]
    · simp only [truncEntry, if_neg hbig]
      simp [List.lookup, hb]
  | vnat n => simp [truncEntry, List.lookup, hb]
  | vbool b => simp [truncEntry, List.lookup, hb]
  | vstr s => simp [truncEntry, List.lookup, hb]

/-- A key absent from a dictionary (and not a flag key of any of its
item-key entries) is absent from the truncated dictionary. -/
theorem lookup_truncateResult_none (f : String) :
    ∀ d : ResultDict, f ∉ d.map Prod.fst →
      (∀ k0 v0, (k0, v0) ∈ d → k0 ∈ itemListKeys →
        f ≠ k0 ++ "_truncated" ∧ f ≠ k0 ++ "_total") →
      List.lookup f (truncateResult d) = none := by
  intro d
  induction d with
  | nil => intro _ _; simp [truncateResult, List.lookup]
  | cons kv rest ih =>
    intro hmem hfl
    obtain ⟨k0, v0⟩ := kv
    simp only [List.map_cons, List.mem_cons] at hmem
    push_neg at hmem
    rw [truncateResult_cons, lookup_append_dict]
    rw [lookup_truncEntry_none f k0 v0 hmem.1 (fun hin => hfl k0 v0 (by simp) hin)]
    rw [ih hmem.2 (fun k1 v1 h1 hin => hfl k1 v1 (by simp [h1]) hin)]
    rfl

/-- Keys outside the item keys and their flag keys are looked up unchanged
through truncation. -/
theorem lookup_truncateResult_other (k : String)
    (hki : k ∉ itemListKeys)
    (hkf : ∀ k0, k0 ∈ itemListKeys → k ≠ k0 ++ "_truncated" ∧ k ≠ k0 ++ "_total") :
    ∀ d : ResultDict, List.lookup k (truncateResult d) = List.lookup k d := by
  intro d
  induction d with
  | nil => rfl
  | cons kv rest ih =>
    obtain ⟨k0, v0⟩ := kv
    rw [truncateResult_cons, lookup_append_dict]
    by_cases heq : k = k0
    · subst heq
      have htr : truncEntry (k, v0) = [(k, v0)] := by
        cases v0 with
        | vlist xs =>
          have hc : ¬ (k ∈ itemListKeys ∧ 50 < xs.length) := fun h => hki h.1
          simp [truncEntry, hc]
        | vnat n => rfl
        | vbool b => rfl
        | vstr s => rfl
      rw [htr]
      simp [List.lookup]
    · rw [lookup_truncEntry_none k k0 v0 heq (fun hin => hkf k0 hin), ih]
      have hb : (k == k0) = false := by simp [heq]
      simp [List.lookup, hb]

/-- Lookups of an item key bound to a raw list, and of its two flag keys,
through truncation. -/
theorem lookup_truncateResult_item (k : String) (hk : k ∈ itemListKeys) :
    ∀ (d : ResultDict) (xs : List String),
      (d.map Prod.fst).Nodup →
      (∀ k0, k0 ∈ itemListKeys →
        (k0 ++ "_truncated") ∉ d.map Prod.fst ∧ (k0 ++ "_total") ∉ d.map Prod.fst) →
      List.lookup k d = some (.vlist xs) →
      ((50 < xs.length →
        List.lookup k (truncateResult d) = some (.vlist (xs.take 50)) ∧
        List.lookup (k ++ "_truncated") (truncateResult d) = some (.vbool true) ∧
        List.lookup (k ++ "_total") (truncateResult d) = some (.vnat xs.length)) ∧
      (xs.length ≤ 50 →
        List.lookup k (truncateResult d) = some (.vlist xs) ∧
        List.lookup (k ++ "_truncated") (truncateResult d) = none ∧
        List.lookup (k ++ "_total") (truncateResult d) = none)) := by
  intro d
  induction d with
  | nil =>
    intro xs _ _ hl
    simp [List.lookup] at hl
  | cons kv rest ih =>
    intro xs hnd hfl hl
    obtain ⟨k0, v0⟩ := kv
    rw [List.map_cons] at hnd
    obtain ⟨hne1, hne2⟩ := itemKey_ne_flag k k hk hk
    rw [truncateResult_cons]
    by_cases heq : k = k0
    · subst heq
      have hv : v0 = .vlist xs := by
        have hb : (k == k) = true := by simp
        simp [List.lookup, hb] at hl
        exact hl
      subst hv
      have hkrest : k ∉ rest.map Prod.fst := (List.nodup_cons.mp hnd).1
      have hflagrest : ∀ x k1 v1, (k1, v1) ∈ rest → k1 ∈ itemListKeys →
          (x = k ++ "_truncated" ∨ x = k ++ "_total") →
          x ≠ k1 ++ "_truncated" ∧ x ≠ k1 ++ "_total" := by
        intro x k1 v1 h1 hin hx
        have hk1 : k1 ≠ k := by
          intro h
          exact hkrest (h ▸ List.mem_map_of_mem Prod.fst h1)
        have hf := flag_key_ne k k1 hk hin hk1
        rcases hx with rfl | rfl
        · exact ⟨hf.1, hf.2.2.1⟩
        · exact ⟨hf.2.2.2, hf.2.1⟩
      have htrrest : (k ++ "_truncated") ∉ rest.map Prod.fst := by
        have := (hfl k hk).1
        simp only [List.map_cons, List.mem_cons] at this
        push_neg at this
        exact this.2
      have htorest : (k ++ "_total") ∉ rest.map Prod.fst := by
        have := (hfl k hk).2
        simp only [List.map_cons, List.mem_cons] at this
        push_neg at this
        exact this.2
      have hlooktr : List.lookup (k ++ "_truncated") (truncateResult rest) = none :=
        lookup_truncateResult_none _ rest htrrest
          (fun k1 v1 h1 hin => hflagrest _ k1 v1 h1 hin (Or.inl rfl))
      have hlookto : List.lookup (k ++ "_total") (truncateResult rest) = none :=
        lookup_truncateResult_none _ rest htorest
          (fun k1 v1 h1 hin => hflagrest _ k1 v1 h1 hin (Or.inr rfl))
      have hbt : ((k ++ "_truncated") == k) = false := by simp [Ne.symm hne1]
      have hbo : ((k ++ "_total") == k) = false := by simp [Ne.symm hne2]
      constructor
      · intro hbig
        have htr : truncEntry (k, .vlist xs) =
            [(k, .vlist (xs.take 50)), (k ++ "_truncated", .vbool true),
             (k ++ "_total", .vnat xs.length)] := by
          simp [truncEntry, hk, hbig]
        rw [htr]
        have hneq3 : ((k ++ "_total") == (k ++ "_truncated")) = false := by
          have : (k ++ "_total") ≠ (k ++ "_truncated") := by
            fin_cases hk <;> decide
          simp [this]
        refine ⟨?_, ?_, ?_⟩
        · rw [lookup_append_dict]
          simp [List.lookup]
        · rw [lookup_append_dict]
          simp [List.lookup, hbt]
        · rw [lookup_append_dict]
          simp [List.lookup, hbo, hneq3]
      · intro hsmall
        have htr : truncEntry (k, .vlist xs) = [(k, .vlist xs)] := by
          have hc : ¬ (k ∈ itemListKeys ∧ 50 < xs.length) := fun h => by omega
          simp [truncEntry, hc]
        rw [htr]
        refine ⟨?_, ?_, ?_⟩
        · rw [lookup_append_dict]
          simp [List.lookup]
        · rw [lookup_append_dict]
          simp [List.lookup, hbt, hlooktr]
        · rw [lookup_append_dict]
          simp [List.lookup, hbo, hlookto]
    · have hb : (k == k0) = false := by simp [heq]
      have hl2 : List.lookup k rest = some (.vlist xs) := by
        simp [List.lookup, hb] at hl
        exact hl
      have hnd2 : (rest.map Prod.fst).Nodup := (List.nodup_cons.mp hnd).2
      have hfl2 : ∀ k1, k1 ∈ itemListKeys →
          (k1 ++ "_truncated") ∉ rest.map Prod.fst ∧
          (k1 ++ "_total") ∉ rest.map Prod.fst := by
        intro k1 h1
        refine ⟨fun hm => (hfl k1 h1).1 ?_, fun hm => (hfl k1 h1).2 ?_⟩ <;> simp [hm]
      obtain ⟨ihbig, ihsmall⟩ := ih xs hnd2 hfl2 hl2
      have hk0ne : k0 ∈ itemListKeys → k0 ≠ k := fun _ h => heq h.symm
      have hsk1 : List.lookup k (truncEntry (k0, v0)) = none :=
        lookup_truncEntry_none k k0 v0 heq (fun hin => itemKey_ne_flag k k0 hk hin)
      have hsk2 : List.lookup (k ++ "_truncated") (truncEntry (k0, v0)) = none := by
        apply lookup_truncEntry_none
        · intro h
          exact (hfl k hk).1 (by simp [h])
        · intro hin
          have hf := flag_key_ne k k0 hk hin (hk0ne hin)
          exact ⟨hf.1, hf.2.2.1⟩
      have hsk3 : List.lookup (k ++ "_total") (truncEntry (k0, v0)) = none := by
        apply lookup_truncEntry_none
        · intro h
          exact (hfl k hk).2 (by simp [h])
        · intro hin
          have hf := flag_key_ne k k0 hk hin (hk0ne hin)
          exact ⟨hf.2.2.2, hf.2.1⟩
      constructor
      · intro hbig
        obtain ⟨a, b, c⟩ := ihbig hbig
        refine ⟨?_, ?_, ?_⟩
        · rw [lookup_append_dict, hsk1, a]
          rfl
        · rw [lookup_append_dict, hsk2, b]
          rfl
        · rw [lookup_append_dict, hsk3, c]
          rfl
      · intro hsmall
        obtain ⟨a, b, c⟩ := ihsmall hsmall
        refine ⟨?_, ?_, ?_⟩
        · rw [lookup_append_dict, hsk1, a]
          rfl
        · rw [lookup_append_dict, hsk2, b]
          rfl
        · rw [lookup_append_dict, hsk3, c]
          rfl

/-- **C7 (confirmed).** For every tool-result dictionary (unique keys, no
pre-existing truncation flags — true of all five tools' results):
each raw item list under `deals`, `work_orders` or `lifecycle` longer than
50 entries is cut to exactly its first 50, with `{key}_truncated = true`
and `{key}_total = original length` attached; a list of 50 or fewer
entries keeps its value and gains no flags; and every other key — all
aggregates — is looked up unchanged. -/
theorem c7_truncation (d : ResultDict)
    (hnodup : (d.map Prod.fst).Nodup)
    (hflags : ∀ k0, k0 ∈ itemListKeys →
      (k0 ++ "_truncated") ∉ d.map Prod.fst ∧ (k0 ++ "_total") ∉ d.map Prod.fst) :
    (∀ k xs, k ∈ itemListKeys → List.lookup k d = some (.vlist xs) →
      (50 < xs.length →
        List.lookup k (truncateResult d) = some (.vlist (xs.take 50)) ∧
        List.lookup (k ++ "_truncated") (truncateResult d) = some (.vbool true) ∧
        List.lookup (k ++ "_total") (truncateResult d) = some (.vnat xs.length)) ∧
      (xs.length ≤ 50 →
        List.lookup k (truncateResult d) = some (.vlist xs) ∧
        List.lookup (k ++ "_truncated") (truncateResult d) = none ∧
        List.lookup (k ++ "_total") (truncateResult d) = none)) ∧
    (∀ k, k ∉ itemListKeys →
      (∀ k0, k0 ∈ itemListKeys → k ≠ k0 ++ "_truncated" ∧ k ≠ k0 ++ "_total") →
      List.lookup k (truncateResult d) = List.lookup k d) :=
  ⟨fun k xs hk hl => lookup_truncateResult_item k hk d xs hnodup hflags hl,
   fun k hki hkf => lookup_truncateResult_other k hki hkf d⟩

/-- Witness for `c7_truncation`: the claim's own example — 120 raw deal
rows yield exactly the first 50 with `deals_truncated = true` and
`deals_total = 120`, the aggregate `total_deals` is untouched; 30 rows
pass through with no flags. -/
theorem c7_truncation_witness :
    List.lookup "deals" (truncateResult
        [("total_deals", .vnat 120), ("deals", .vlist (List.replicate 120 "r"))]) =
      some (.vlist (List.replicate 50 "r")) ∧
    List.lookup "deals_truncated" (truncateResult
        [("total_deals", .vnat 120), ("deals", .vlist (List.replicate 120 "r"))]) =
      some (.vbool true) ∧
    List.lookup "deals_total" (truncateResult
        [("total_deals", .vnat 120), ("deals", .vlist (List.replicate 120 "r"))]) =
      some (.vnat 120) ∧
    List.lookup "total_deals" (truncateResult
        [("total_deals", .vnat 120), ("deals", .vlist (List.replicate 120 "r"))]) =
      some (.vnat 120) ∧
    List.lookup "deals" (truncateResult [("deals", .vlist (List.replicate 30 "r"))]) =
      some (.vlist (List.replicate 30 "r")) ∧
    List.lookup "deals_truncated" (truncateResult
        [("deals", .vlist (List.replicate 30 "r"))]) = none := by
  have h1 := c7_truncation
    [("total_deals", .vnat 120), ("deals", .vlist (List.replicate 120 "r"))]
    (by decide) (by decide)
  have h2 := c7_truncation [("deals", .vlist (List.replicate 30 "r"))]
    (by decide) (by decide)
  have hl1 : List.lookup "deals"
      [("total_deals", RVal.vnat 120), ("deals", RVal.vlist (List.replicate 120 "r"))] =
      some (.vlist (List.replicate 120 "r")) := by
    simp [List.lookup]
  have hl2 : List.lookup "deals" [("deals", RVal.vlist (List.replicate 30 "r"))] =
      some (.vlist (List.replicate 30 "r")) := by
    simp [List.lookup]
  have hbig := (h1.1 "deals" (List.replicate 120 "r") (by decide) hl1).1
    (by simp)
  have hsmall := (h2.1 "deals" (List.replicate 30 "r") (by decide) hl2).2
    (by simp)
  refine ⟨?_, ?_, ?_, ?_, ?_, ?_⟩
  · have := hbig.1
    rwa [List.take_replicate, show min 50 120 = 50 by decide] at this
  · exact hbig.2.1
  · have := hbig.2.2
    rwa [List.length_replicate] at this
  · have := h1.2 "total_deals" (by decide) (by intro k0 hin; fin_cases hin <;> exact ⟨by decide, by decide⟩)
    rw [this]
    simp [List.lookup]
  · exact hsmall.1
  · exact hsmall.2.1

theorem toolExecNodeGo_length (run : ToolCall → ExecOut) (clock : Nat → Int) :
    ∀ (cs : List ToolCall) (i : Nat), (toolExecNodeGo run clock i cs).length = cs.length := by
  intro cs
  induction cs with
  | nil => intro i; rfl
  | cons c rest ih => intro i; simp [toolExecNodeGo, ih]

theorem toolExecutionNode_msgs_length (calls : List ToolCall) (run : ToolCall → ExecOut)
    (clock : Nat → Int) : (toolExecutionNode calls run clock).1.length = calls.length := by
  simp [toolExecutionNode, toolExecNodeGo_length]

theorem toolExecutionNode_traces_length (calls : List ToolCall) (run : ToolCall → ExecOut)
    (clock : Nat → Int) : (toolExecutionNode calls run clock).2.length = calls.length := by
  simp [toolExecutionNode, toolExecNodeGo_length]

theorem toolExecNodeGo_get (run : ToolCall → ExecOut) (clock : Nat → Int) :
    ∀ (cs : List ToolCall) (i j : Nat) (h : j < cs.length),
      (toolExecNodeGo run clock i cs).get
          ⟨j, by rw [toolExecNodeGo_length]; exact h⟩ =
        execOne run (cs.get ⟨j, h⟩) (clock (2 * (i + j))) (clock (2 * (i + j) + 1)) := by
  intro cs
  induction cs with
  | nil => intro i j h; exact absurd h (by simp)
  | cons c rest ih =>
    intro i j h
    cases j with
    | zero => simp [toolExecNodeGo]
    | succ j2 =>
      have h2 : j2 < rest.length := by simpa using h
      have := ih (i + 1) j2 h2
      simp only [toolExecNodeGo, List.get_cons_succ]
      rw [this]
      congr 2 <;> omega

/-- Per-call behaviour of the dispatcher boundary. -/
theorem execOne_spec (run : ToolCall → ExecOut) (c : ToolCall) (t0 t1 : Int)
    (hdur : t0 ≤ t1) :
    (execOne run c t0 t1).1.toolCallId = c.id ∧
    0 ≤ (execOne run c t0 t1).2.durationMs ∧
    (match effOutcome run c with
     | .ok d =>
        (execOne run c t0 t1).2.status = "completed" ∧
        (execOne run c t0 t1).1.content = .okJson (truncateResult d)
     | .raised m =>
        (execOne run c t0 t1).2.status = "error" ∧
        (execOne run c t0 t1).1.content = .errJson m) := by
  cases hout : effOutcome run c with
  | ok d =>
    refine ⟨by simp [execOne, hout], by simp [execOne, hout]; omega, ?_⟩
    simp [execOne, hout]
  | raised m =>
    refine ⟨by simp [execOne, hout], by simp [execOne, hout]; omega, ?_⟩
    simp [execOne, hout]

/-- **C8 (confirmed).** For every list of ToolCalls — including calls
naming unknown tools and calls whose tool raises — and any monotone clock:
the node appends exactly one tool-result message per call, carrying the
originating call's id (`{error: message}` content on failure), and records
exactly one trace per call whose `duration_ms` is present and ≥ 0, with
status `"completed"` on success and `"error"` on failure; no failure
aborts the remaining calls. -/
theorem c8_tool_execution (calls : List ToolCall) (run : ToolCall → ExecOut)
    (clock : Nat → Int) (hclock : ∀ n, clock n ≤ clock (n + 1)) :
    (toolExecutionNode calls run clock).1.length = calls.length ∧
    (toolExecutionNode calls run clock).2.length = calls.length ∧
    ∀ j (hj : j < calls.length),
      ((toolExecutionNode calls run clock).1.get
          ⟨j, by rw [toolExecutionNode_msgs_length]; exact hj⟩).toolCallId =
        (calls.get ⟨j, hj⟩).id ∧
      0 ≤ ((toolExecutionNode calls run clock).2.get
          ⟨j, by rw [toolExecutionNode_traces_length]; exact hj⟩).durationMs ∧
      (match effOutcome run (calls.get ⟨j, hj⟩) with
       | .ok d =>
          ((toolExecutionNode calls run clock).2.get
              ⟨j, by rw [toolExecutionNode_traces_length]; exact hj⟩).status =
            "completed" ∧
          ((toolExecutionNode calls run clock).1.get
              ⟨j, by rw [toolExecutionNode_msgs_length]; exact hj⟩).content =
            .okJson (truncateResult d)
       | .raised m =>
          ((toolExecutionNode calls run clock).2.get
              ⟨j, by rw [toolExecutionNode_traces_length]; exact hj⟩).status =
            "error" ∧
          ((toolExecutionNode calls run clock).1.get
              ⟨j, by rw [toolExecutionNode_msgs_length]; exact hj⟩).content =
            .errJson m) := by
  refine ⟨toolExecutionNode_msgs_length calls run clock,
    toolExecutionNode_traces_length calls run clock, ?_⟩
  intro j hj
  have hget := toolExecNodeGo_get run clock calls 0 j hj
  have hmsg : (toolExecutionNode calls run clock).1.get
      ⟨j, by rw [toolExecutionNode_msgs_length]; exact hj⟩ =
      (execOne run (calls.get ⟨j, hj⟩) (clock (2 * j)) (clock (2 * j + 1))).1 := by
    simp only [toolExecutionNode, List.get_map]
    rw [hget]
    norm_num
  have htr : (toolExecutionNode calls run clock).2.get
      ⟨j, by rw [toolExecutionNode_traces_length]; exact hj⟩ =
      (execOne run (calls.get ⟨j, hj⟩) (clock (2 * j)) (clock (2 * j + 1))).2 := by
    simp only [toolExecutionNode, List.get_map]
    rw [hget]
    norm_num
  rw [hmsg, htr]
  exact execOne_spec run (calls.get ⟨j, hj⟩) (clock (2 * j)) (clock (2 * j + 1))
    (hclock (2 * j))

/-- Witness for `c8_tool_execution`: one successful call to a known tool
and one call to an unknown tool, under the identity clock. -/
theorem c8_tool_execution_witness :
    (toolExecutionNode
        [⟨"call1", "get_data_summary", []⟩, ⟨"call2", "no_such_tool", []⟩]
        (fun _ => .ok [("summary", .vstr "ok")]) (fun n => (n : Int))).1.length = 2 ∧
    ((toolExecutionNode
        [⟨"call1", "get_data_summary", []⟩, ⟨"call2", "no_such_tool", []⟩]
        (fun _ => .ok [("summary", .vstr "ok")]) (fun n => (n : Int))).2.get
        ⟨1, by rw [toolExecutionNode_traces_length]; norm_num⟩).status = "error" := by
  have h := c8_tool_execution
    [⟨"call1", "get_data_summary", []⟩, ⟨"call2", "no_such_tool", []⟩]
    (fun _ => .ok [("summary", .vstr "ok")]) (fun n => (n : Int))
    (fun n => by norm_num)
  refine ⟨h.1, ?_⟩
  have h2 := (h.2.2 1 (by norm_num)).2.2
  have hout : effOutcome (fun _ => ExecOut.ok [("summary", RVal.vstr "ok")])
      (([⟨"call1", "get_data_summary", []⟩, ⟨"call2", "no_such_tool", []⟩] :
        List ToolCall).get ⟨1, by norm_num⟩) =
      .raised ("Unknown tool: " ++ "no_such_tool") := by
    decide
  rw [hout] at h2
  exact h2.1

/-- **C10 (confirmed).** For every successful dispatch whose result dict
binds none of `total_deals`, `total_work_orders`, `common_deal_count` to a
truthy value — in particular the results of `aggregate_metrics` and
`get_data_summary`, which carry none of these keys, and any result whose
present such fields all equal 0 — the trace reports `items_returned = 0`
and the summary reads `"0 items returned in {t}ms"`. -/
theorem c10_items_returned (d : ResultDict) (c : ToolCall) (run : ToolCall → ExecOut)
    (t0 t1 : Int)
    (hrun : effOutcome run c = .ok d)
    (h1 : ∀ v, List.lookup "total_deals" d = some v → v = .vnat 0)
    (h2 : ∀ v, List.lookup "total_work_orders" d = some v → v = .vnat 0)
    (h3 : ∀ v, List.lookup "common_deal_count" d = some v → v = .vnat 0) :
    itemsCount d = .vnat 0 ∧
    (execOne run c t0 t1).2.itemsReturned = some (.vnat 0) ∧
    (execOne run c t0 t1).2.resultSummary =
      "0 items returned in " ++ toString (t1 - t0) ++ "ms" := by
  have hcount : itemsCount d = .vnat 0 := by
    have e3 : orLookup d "common_deal_count" (.vnat 0) = .vnat 0 := by
      unfold orLookup
      cases hl : List.lookup "common_deal_count" d with
      | none => rfl
      | some v => rw [h3 v hl]; rfl
    have e2 : orLookup d "total_work_orders" (orLookup d "common_deal_count" (.vnat 0)) =
        .vnat 0 := by
      unfold orLookup
      cases hl : List.lookup "total_work_orders" d with
      | none => exact e3
      | some v => rw [h2 v hl]; simpa [truthyRVal] using e3
    unfold itemsCount orLookup
    cases hl : List.lookup "total_deals" d with
    | none => exact e2
    | some v => rw [h1 v hl]; simpa [truthyRVal] using e2
  have h0 : rvalStr (.vnat 0) ++ " items returned in " = "0 items returned in " := rfl
  refine ⟨hcount, ?_, ?_⟩ <;>
    simp [execOne, hrun, hcount, rvalStr] <;>
    rw [show (toString (0 : Nat)) ++ " items returned in " = "0 items returned in " from rfl]

/-- Witness for `c10_items_returned`: an `aggregate_metrics`-shaped result
(no `total_deals` / `total_work_orders` / `common_deal_count` keys) traced
with `items_returned = 0` even though records were aggregated. -/
theorem c10_items_returned_witness :
    itemsCount [("board", .vstr "deals"), ("metric", .vstr "count"),
      ("results", .vstr "…")] = .vnat 0 ∧
    (execOne (fun _ => .ok [("board", .vstr "deals"), ("metric", .vstr "count"),
        ("results", .vstr "…")]) ⟨"c1", "aggregate_metrics", []⟩ 0 3).2.itemsReturned =
      some (.vnat 0) := by
  have h := c10_items_returned
    [("board", .vstr "deals"), ("metric", .vstr "count"), ("results", .vstr "…")]
    ⟨"c1", "aggregate_metrics", []⟩
    (fun _ => .ok [("board", .vstr "deals"), ("metric", .vstr "count"),
      ("results", .vstr "…")]) 0 3
    (by decide)
    (by intro v hv; simp [List.lookup] at hv)
    (by intro v hv; simp [List.lookup] at hv)
    (by intro v hv; simp [List.lookup] at hv)
  exact ⟨h.1, h.2.1⟩

theorem half_lt_iff (n t : Nat) : ((n : ℚ) > (t : ℚ) * (1 / 2)) ↔ t < 2 * n := by
  rw [gt_iff_lt, mul_one_div, div_lt_iff₀ (by norm_num : (0 : ℚ) < 2)]
  norm_cast
  omega

theorem tenth_lt_iff (n t : Nat) : ((n : ℚ) > (t : ℚ) * (1 / 10)) ↔ t < 10 * n := by
  rw [gt_iff_lt, mul_one_div, div_lt_iff₀ (by norm_num : (0 : ℚ) < 10)]
  norm_cast
  omega

/-- **C6 (confirmed).** Caveat generation for both boards: with zero
records, exactly one "no records" caveat and nothing else; otherwise the
deal-value caveat is emitted iff any value is missing (reporting the
missing count out of the total, whence the valued count), the
actual-close-date and closure-probability caveats iff the missing rate
exceeds 50%, the tentative-close-date caveat iff it exceeds 10%, the
work-order collected and billed caveats iff any are missing, and the
billing-status caveat iff its missing rate exceeds 50%. -/
theorem c6_caveats (rs : List DealC) (ws : List WoC) :
    (rs = [] → dealsCaveats rs = [.noDeals]) ∧
    (ws = [] → woCaveats ws = [.noWos]) ∧
    (rs ≠ [] →
      DCaveat.noDeals ∉ dealsCaveats rs ∧
      (∀ n t, DCaveat.nullValues n t ∈ dealsCaveats rs ↔
        n = rs.countP (fun r => r.value = none) ∧ t = rs.length ∧ 0 < n) ∧
      (∀ n t, DCaveat.nullClose n t ∈ dealsCaveats rs ↔
        n = rs.countP (fun r => falsyOpt r.closeDate) ∧ t = rs.length ∧ t < 2 * n) ∧
      (∀ n t, DCaveat.nullProb n t ∈ dealsCaveats rs ↔
        n = rs.countP (fun r => falsyOpt r.prob) ∧ t = rs.length ∧ t < 2 * n) ∧
      (∀ n t, DCaveat.nullTentative n t ∈ dealsCaveats rs ↔
        n = rs.countP (fun r => falsyOpt r.tentative) ∧ t = rs.length ∧ t < 10 * n)) ∧
    (ws ≠ [] →
      WCaveat.noWos ∉ woCaveats ws ∧
      (∀ n t, WCaveat.nullCollected n t ∈ woCaveats ws ↔
        n = ws.countP (fun w => w.collected = none) ∧ t = ws.length ∧ 0 < n) ∧
      (∀ n t, WCaveat.nullBilled n t ∈ woCaveats ws ↔
        n = ws.countP (fun w => w.billed = none) ∧ t = ws.length ∧ 0 < n) ∧
      (∀ n t, WCaveat.nullBillingStatus n t ∈ woCaveats ws ↔
        n = ws.countP (fun w => falsyOpt w.billingStatus) ∧ t = ws.length ∧ t < 2 * n)) := by
  refine ⟨?_, ?_, ?_, ?_⟩
  · intro h
    subst h
    rfl
  · intro h
    subst h
    rfl
  · intro hne
    have hie : rs.isEmpty = false := by
      simpa [List.isEmpty_iff] using hne
    simp only [dealsCaveats, hie, Bool.false_eq_true, if_false, half_lt_iff, tenth_lt_iff]
    refine ⟨?_, ?_, ?_, ?_, ?_⟩ <;>
      first
        | (intro n t
           simp only [List.mem_append]
           split_ifs with h1 h2 h3 h4 <;> simp_all <;> omega)
        | (simp only [List.mem_append]
           split_ifs with h1 h2 h3 h4 <;> simp_all)
  · intro hne
    have hie : ws.isEmpty = false := by
      simpa [List.isEmpty_iff] using hne
    simp only [woCaveats, hie, Bool.false_eq_true, if_false, half_lt_iff]
    refine ⟨?_, ?_, ?_, ?_⟩ <;>
      first
        | (intro n t
           simp only [List.mem_append]
           split_ifs with h1 h2 h3 <;> simp_all <;> omega)
        | (simp only [List.mem_append]
           split_ifs with h1 h2 h3 <;> simp_all)

/-- Witness for `c6_caveats`: the claim's own instance — a 10-record deals
set with 6 null closure probabilities (60% > 50%) emits the caveat; one
with 1 null (10% ≤ 50%) does not. -/
theorem c6_caveats_witness :
    DCaveat.nullProb 6 10 ∈
      dealsCaveats (List.replicate 6 dealNoProb ++ List.replicate 4 dealWithProb) ∧
    ∀ n t, DCaveat.nullProb n t ∉
      dealsCaveats (List.replicate 1 dealNoProb ++ List.replicate 9 dealWithProb) := by
  constructor
  · have h := ((c6_caveats
        (List.replicate 6 dealNoProb ++ List.replicate 4 dealWithProb) []).2.2.1
      (by decide)).2.2.2.1 6 10
    exact h.mpr ⟨by decide, by decide, by decide⟩
  · intro n t hmem
    have h := ((c6_caveats
        (List.replicate 1 dealNoProb ++ List.replicate 9 dealWithProb) []).2.2.1
      (by decide)).2.2.2.1 n t
    obtain ⟨hn, ht, hlt⟩ := h.mp hmem
    have hn1 : n = 1 := by
      rw [hn]
      decide
    have ht1 : t = 10 := by
      rw [ht]
      decide
    omega

theorem truthyStr_eq_of_ne_empty (v : Option String) (h : v ≠ some "") :
    truthyStr v = v := by
  cases v with
  | none => rfl
  | some s =>
    have hs : s ≠ "" := fun he => h (by rw [he])
    simp [truthyStr, hs]

theorem sum_filterMap_getD {α : Type} (l : List α) (f : α → Option ℚ) :
    (l.filterMap f).sum = (l.map (fun x => (f x).getD 0)).sum := by
  induction l with
  | nil => rfl
  | cons a rest ih =>
    cases h : f a with
    | none => simp [List.filterMap_cons, h, ih]
    | some q => simp [List.filterMap_cons, h, ih]

theorem filterMap_map_of_all_some {α β : Type} (g : β → α) (f : α → Option β) :
    ∀ l : List α, (∀ x ∈ l, ∃ e, f x = some e ∧ g e = x) →
      (l.filterMap f).map g = l := by
  intro l
  induction l with
  | nil => intro _; rfl
  | cons a rest ih =>
    intro h
    obtain ⟨e, he, hge⟩ := h a (by simp)
    simp [List.filterMap_cons, he, hge, ih (fun x hx => h x (by simp [hx]))]

theorem mem_commonNamesList (ds : List DealR) (ws : List WoR) (n : String) :
    n ∈ commonNamesList ds ws ↔ n ∈ dealNames ds ∩ woNames ws := by
  simp [commonNamesList, List.mem_filter, dealNames, Finset.mem_inter,
    List.mem_toFinset, List.mem_dedup]

theorem commonNamesList_nodup (ds : List DealR) (ws : List WoR) :
    (commonNamesList ds ws).Nodup :=
  (List.nodup_dedup _).filter _

theorem mkEntry_of_mem (ds : List DealR) (ws : List WoR) (n : String)
    (hn : n ∈ commonNamesList ds ws) :
    ∃ e, mkEntry ds ws n = some e ∧ e.dealName = n := by
  have hd : ∃ d ∈ ds, truthyStr d.name = some n := by
    have := (mem_commonNamesList ds ws n).mp hn
    have h1 : n ∈ dealNames ds := (Finset.mem_inter.mp this).1
    simpa [dealNames, List.mem_toFinset, List.mem_filterMap] using h1
  obtain ⟨d, hdmem, hdn⟩ := hd
  have hname : d.name = some n := by
    cases hv : d.name with
    | none => rw [hv] at hdn; exact absurd hdn (by simp [truthyStr])
    | some s =>
      rw [hv] at hdn
      by_cases hs : s = ""
      · simp [truthyStr, hs] at hdn
      · simp [truthyStr, hs] at hdn
        rw [hdn]
  have hfind : (ds.find? (fun d => d.name = some n)).isSome := by
    rw [List.find?_isSome]
    exact ⟨d, hdmem, by simp [hname]⟩
  obtain ⟨deal, hdeal⟩ := Option.isSome_iff_exists.mp hfind
  exact ⟨_, by rw [mkEntry, hdeal], rfl⟩

/-- **C2 (counterexample).** A deals board holding a single record whose
item name is the empty string (non-null), with no work orders: the claim's
set of non-null deal names gives `deals_only_count = 1`, but the code's
truthiness guard drops `""`, so `cross_board_analysis` reports 0. -/
theorem c2_cross_board_counterexample :
    dealsOnlyCount [⟨some "", none, none, none⟩] [] = 0 ∧
    ((specDealNames [⟨some "", none, none, none⟩]) \ (specWoNames [])).card = 1 := by
  decide

/-- **C2 (amended).** For every pair of cleaned, filtered record sets,
`cross_board_analysis` reports `common_deal_count = |D ∩ W|`,
`deals_only_count = |D \ W|` and `wo_only_count = |W \ D|` where `D`, `W`
are the sets of non-null, NON-EMPTY deal names of the two boards (these
coincide with the claim's non-null reading whenever no record carries an
empty name); the lifecycle names enumerate each common name exactly once;
each entry's financial totals sum only the work orders bearing its deal
name, nulls contributing 0; and each entry carries the attributes of the
first (hence, when unique, the single) deal record bearing its name. -/
theorem c2_cross_board_amended (ds : List DealR) (ws : List WoR) :
    ((∀ d ∈ ds, d.name ≠ some "") → dealNames ds = specDealNames ds) ∧
    ((∀ w ∈ ws, w.dealName ≠ some "") → woNames ws = specWoNames ws) ∧
    commonDealCount ds ws = (dealNames ds ∩ woNames ws).card ∧
    dealsOnlyCount ds ws = (dealNames ds \ woNames ws).card ∧
    woOnlyCount ds ws = (woNames ws \ dealNames ds).card ∧
    (lifecycle ds ws).map (fun e => e.dealName) = commonNamesList ds ws ∧
    (commonNamesList ds ws).Nodup ∧
    (∀ n, n ∈ commonNamesList ds ws ↔ n ∈ dealNames ds ∩ woNames ws) ∧
    (lifecycle ds ws).length = commonDealCount ds ws ∧
    (∀ e ∈ lifecycle ds ws,
      e.woCount = (ws.filter (fun w => w.dealName = some e.dealName)).length ∧
      e.woTotalAmount = ((ws.filter (fun w => w.dealName = some e.dealName)).map
        (fun w => w.amount.getD 0)).sum ∧
      e.woTotalBilled = ((ws.filter (fun w => w.dealName = some e.dealName)).map
        (fun w => w.billed.getD 0)).sum ∧
      e.woTotalCollected = ((ws.filter (fun w => w.dealName = some e.dealName)).map
        (fun w => w.collected.getD 0)).sum ∧
      e.woTotalReceivable = ((ws.filter (fun w => w.dealName = some e.dealName)).map
        (fun w => w.receivable.getD 0)).sum) ∧
    (∀ n d, ds.find? (fun d => d.name = some n) = some d →
      ∀ e ∈ lifecycle ds ws, e.dealName = n →
        e.dealStatus = d.status ∧ e.dealStage = d.stage ∧ e.dealValue = d.value) := by
  refine ⟨?_, ?_, rfl, rfl, rfl, ?_, commonNamesList_nodup ds ws,
    mem_commonNamesList ds ws, ?_, ?_, ?_⟩
  · intro hne
    have : ds.filterMap (fun d => truthyStr d.name) = ds.filterMap (fun d => d.name) := by
      induction ds with
      | nil => rfl
      | cons d rest ih =>
        rw [List.filterMap_cons, List.filterMap_cons,
          truthyStr_eq_of_ne_empty d.name (hne d (by simp)),
          ih (fun x hx => hne x (by simp [hx]))]
    rw [dealNames, specDealNames, this]
  · intro hne
    have : ws.filterMap (fun w => truthyStr w.dealName) =
        ws.filterMap (fun w => w.dealName) := by
      induction ws with
      | nil => rfl
      | cons w rest ih =>
        rw [List.filterMap_cons, List.filterMap_cons,
          truthyStr_eq_of_ne_empty w.dealName (hne w (by simp)),
          ih (fun x hx => hne x (by simp [hx]))]
    rw [woNames, specWoNames, this]
  · exact filterMap_map_of_all_some _ _ _ (fun n hn => mkEntry_of_mem ds ws n hn)
  · have hmap := filterMap_map_of_all_some (fun e => e.dealName) (mkEntry ds ws)
      (commonNamesList ds ws) (fun n hn => mkEntry_of_mem ds ws n hn)
    have hlen : (lifecycle ds ws).length = (commonNamesList ds ws).length := by
      rw [← hmap, lifecycle, List.length_map]
    rw [hlen, commonDealCount]
    have hfs : (commonNamesList ds ws).toFinset = dealNames ds ∩ woNames ws := by
      ext n
      rw [List.mem_toFinset]
      exact mem_commonNamesList ds ws n
    rw [← hfs, List.toFinset_card_of_nodup (commonNamesList_nodup ds ws)]
  · intro e he
    obtain ⟨n, hn, hmk⟩ := List.mem_filterMap.mp he
    rw [mkEntry] at hmk
    cases hfind : ds.find? (fun d => d.name = some n) with
    | none => rw [hfind] at hmk; exact absurd hmk (by simp)
    | some deal =>
      rw [hfind] at hmk
      have he2 := Option.some_inj.mp hmk
      subst he2
      refine ⟨rfl, ?_, ?_, ?_, ?_⟩ <;>
        exact sum_filterMap_getD (wosFor ws n) _
  · intro n d hfind e he hen
    obtain ⟨m, hm, hmk⟩ := List.mem_filterMap.mp he
    rw [mkEntry] at hmk
    cases hf2 : ds.find? (fun d0 => d0.name = some m) with
    | none => rw [hf2] at hmk; exact absurd hmk (by simp)
    | some deal =>
      rw [hf2] at hmk
      have he2 := Option.some_inj.mp hmk
      subst he2
      have hmn : m = n := hen
      subst hmn
      rw [hfind] at hf2
      have := Option.some_inj.mp hf2
      subst this
      exact ⟨rfl, rfl, rfl⟩

/-- Witness for `c2_cross_board_amended`: the claim's own example — Deals
{Alpha, Beta} with WorkOrders {Beta, Beta, Gamma} give counts 1, 1, 1, one
lifecycle entry for Beta, and its amount total 12 sums only Beta's work
orders (5 + 7, not Gamma's 100). -/
theorem c2_cross_board_witness :
    commonDealCount [dealAlpha, dealBeta] [woBeta5, woBeta7, woGamma] = 1 ∧
    dealsOnlyCount [dealAlpha, dealBeta] [woBeta5, woBeta7, woGamma] = 1 ∧
    woOnlyCount [dealAlpha, dealBeta] [woBeta5, woBeta7, woGamma] = 1 ∧
    (lifecycle [dealAlpha, dealBeta] [woBeta5, woBeta7, woGamma]).map
      (fun e => e.dealName) = ["Beta"] ∧
    ∀ e ∈ lifecycle [dealAlpha, dealBeta] [woBeta5, woBeta7, woGamma],
      e.woTotalAmount = 12 := by
  have h := c2_cross_board_amended [dealAlpha, dealBeta] [woBeta5, woBeta7, woGamma]
  have hmap := h.2.2.2.2.2.1
  have hcnl : commonNamesList [dealAlpha, dealBeta] [woBeta5, woBeta7, woGamma] =
      ["Beta"] := by
    decide
  refine ⟨by decide, by decide, by decide, by rw [hmap, hcnl], ?_⟩
  intro e he
  have hname : e.dealName = "Beta" := by
    have : e.dealName ∈ (lifecycle [dealAlpha, dealBeta]
        [woBeta5, woBeta7, woGamma]).map (fun e => e.dealName) :=
      List.mem_map_of_mem _ he
    rw [hmap, hcnl] at this
    simpa using this
  have hsum := (h.2.2.2.2.2.2.2.2.2.1 e he).2.1
  rw [hname] at hsum
  rw [hsum]
  have hfil : ([woBeta5, woBeta7, woGamma].filter
      (fun w => w.dealName = some "Beta")) = [woBeta5, woBeta7] := by
    simp [List.filter, woBeta5, woBeta7, woGamma]
  rw [hfil]
  simp [woBeta5, woBeta7]
  norm_num

theorem isAlphaA_not_digit (c : Char) (h : isAlphaA c = true) : isDigitA c = false := by
  simp only [isAlphaA, isDigitA, Bool.or_eq_true, Bool.and_eq_true, decide_eq_true_eq] at h ⊢
  rw [Bool.and_eq_false_iff]
  simp only [decide_eq_false_iff_not]
  omega

theorem isAlphaA_not_ws (c : Char) (h : isAlphaA c = true) : isWs c = false := by
  by_contra hw
  rw [Bool.not_eq_false] at hw
  simp only [isWs, Bool.or_eq_true, decide_eq_true_eq] at hw
  rcases hw with ((((rfl | rfl) | rfl) | rfl) | rfl) | rfl <;> exact absurd h (by decide)

theorem pLit_some (c : Char) (cs r : List Char) (h : pLit c cs = some r) : cs = c :: r := by
  cases cs with
  | nil => exact absurd h (by simp [pLit])
  | cons a rest =>
    simp only [pLit] at h
    by_cases ha : a = c
    · rw [if_pos ha] at h
      rw [ha, Option.some_inj.mp h]
    · rw [if_neg ha] at h
      exact absurd h (by simp)

theorem p4Y_some (cs : List Char) (v : Nat) (r : List Char) (h : p4Y cs = some (v, r)) :
    ∃ pre, cs = pre ++ r ∧ ∀ c ∈ pre, isDigitA c = true := by
  rcases cs with _ | ⟨a, _ | ⟨b, _ | ⟨c2, _ | ⟨d, rest⟩⟩⟩⟩ <;>
    simp only [p4Y] at h
  · exact absurd h (by simp)
  · exact absurd h (by simp)
  · exact absurd h (by simp)
  · exact absurd h (by simp)
  · by_cases hd : (isDigitA a && isDigitA b && isDigitA c2 && isDigitA d) = true
    · rw [if_pos hd] at h
      obtain ⟨-, hr⟩ := Prod.mk.injEq .. ▸ Option.some_inj.mp h
      subst hr
      simp only [Bool.and_eq_true] at hd
      refine ⟨[a, b, c2, d], rfl, ?_⟩
      intro c hc
      simp only [List.mem_cons, List.not_mem_nil, or_false] at hc
      rcases hc with rfl | rfl | rfl | rfl
      · exact hd.1.1.1
      · exact hd.1.1.2
      · exact hd.1.2
      · exact hd.2
    · rw [if_neg hd] at h
      exact absurd h (by simp)

theorem p4Y_none_of (cs : List Char) (h : starts4digit cs = false) : p4Y cs = none := by
  rcases cs with _ | ⟨a, _ | ⟨b, _ | ⟨c2, _ | ⟨d, rest⟩⟩⟩⟩ <;>
    simp only [p4Y, starts4digit] at h ⊢
  rw [if_neg]
  rw [h]
  simp

theorem pMonth_some (cs : List Char) (v : Nat) (r : List Char) (h : pMonth cs = some (v, r)) :
    ∃ pre, cs = pre ++ r ∧ ∀ c ∈ pre, isDigitA c = true := by
  rcases cs with _ | ⟨a, _ | ⟨b, rest⟩⟩
  · exact absurd h (by simp [pMonth])
  · simp only [pMonth] at h
    by_cases h1 : (isDigitA a && a ≠ '0') = true
    · rw [if_pos h1] at h
      obtain ⟨-, hr⟩ := Prod.mk.injEq .. ▸ Option.some_inj.mp h
      subst hr
      simp only [Bool.and_eq_true] at h1
      exact ⟨[a], rfl, by intro c hc; simp at hc; rw [hc]; exact h1.1⟩
    · rw [if_neg h1] at h
      exact absurd h (by simp)
  · simp only [pMonth] at h
    by_cases h1 : (a = '1' && ('0' ≤ b && b ≤ '2')) = true
    · rw [if_pos h1] at h
      obtain ⟨-, hr⟩ := Prod.mk.injEq .. ▸ Option.some_inj.mp h
      subst hr
      simp only [Bool.and_eq_true, decide_eq_true_eq] at h1
      refine ⟨[a, b], rfl, ?_⟩
      intro c hc
      simp only [List.mem_cons, List.not_mem_nil, or_false] at hc
      rcases hc with rfl | rfl
      · rw [h1.1]; decide
      · obtain ⟨h0, h2⟩ := h1.2
        simp only [isDigitA, Bool.and_eq_true, decide_eq_true_eq]
        have hb0 : ' '.toNat ≤ c.toNat ∨ 48 ≤ c.toNat := by
          right
          exact Char.le_def.mp h0
        have hb2 : c.toNat ≤ 50 := Char.le_def.mp h2
        constructor
        · exact_mod_cast (Char.le_def.mp h0)
        · omega
    · rw [if_neg h1] at h
      by_cases h2 : (a = '0' && (isDigitA b && b ≠ '0')) = true
      · rw [if_pos h2] at h
        obtain ⟨-, hr⟩ := Prod.mk.injEq .. ▸ Option.some_inj.mp h
        subst hr
        simp only [Bool.and_eq_true] at h2
        refine ⟨[a, b], rfl, ?_⟩
        intro c hc
        simp only [List.mem_cons, List.not_mem_nil, or_false] at hc
        rcases hc with rfl | rfl
        · rw [decide_eq_true_eq.mp h2.1]; decide
        · exact h2.2.1
      · rw [if_neg h2] at h
        by_cases h3 : (isDigitA a && a ≠ '0') = true
        · rw [if_pos h3] at h
          obtain ⟨-, hr⟩ := Prod.mk.injEq .. ▸ Option.some_inj.mp h
          subst hr
          simp only [Bool.and_eq_true] at h3
          exact ⟨[a], rfl, by intro c hc; simp at hc; rw [hc]; exact h3.1⟩
        · rw [if_neg h3] at h
          exact absurd h (by simp)

theorem pDay_some (cs : List Char) (v : Nat) (r : List Char) (h : pDay cs = some (v, r)) :
    ∃ pre, cs = pre ++ r ∧ ∀ c ∈ pre, isDigitA c = true := by
  rcases cs with _ | ⟨a, _ | ⟨b, rest⟩⟩
  · exact absurd h (by simp [pDay])
  · simp only [pDay] at h
    by_cases h1 : (isDigitA a && a ≠ '0') = true
    · rw [if_pos h1] at h
      obtain ⟨-, hr⟩ := Prod.mk.injEq .. ▸ Option.some_inj.mp h
      subst hr
      simp only [Bool.and_eq_true] at h1
      exact ⟨[a], rfl, by intro c hc; simp at hc; rw [hc]; exact h1.1⟩
    · rw [if_neg h1] at h
      exact absurd h (by simp)
  · simp only [pDay] at h
    by_cases h1 : (a = '3' && (b = '0' || b = '1')) = true
    · rw [if_pos h1] at h
      obtain ⟨-, hr⟩ := Prod.mk.injEq .. ▸ Option.some_inj.mp h
      subst hr
      simp only [Bool.and_eq_true, Bool.or_eq_true, decide_eq_true_eq] at h1
      refine ⟨[a, b], rfl, ?_⟩
      intro c hc
      simp only [List.mem_cons, List.not_mem_nil, or_false] at hc
      rcases hc with rfl | rfl
      · rw [h1.1]; decide
      · rcases h1.2 with rfl | rfl <;> decide
    · rw [if_neg h1] at h
      by_cases h2 : ((a = '1' || a = '2') && isDigitA b) = true
      · rw [if_pos h2] at h
        obtain ⟨-, hr⟩ := Prod.mk.injEq .. ▸ Option.some_inj.mp h
        subst hr
        simp only [Bool.and_eq_true, Bool.or_eq_true, decide_eq_true_eq] at h2
        refine ⟨[a, b], rfl, ?_⟩
        intro c hc
        simp only [List.mem_cons, List.not_mem_nil, or_false] at hc
        rcases hc with rfl | rfl
        · rcases h2.1 with rfl | rfl <;> decide
        · exact h2.2
      · rw [if_neg h2] at h
        by_cases h3 : (a = '0' && (isDigitA b && b ≠ '0')) = true
        · rw [if_pos h3] at h
          obtain ⟨-, hr⟩ := Prod.mk.injEq .. ▸ Option.some_inj.mp h
          subst hr
          simp only [Bool.and_eq_true, decide_eq_true_eq] at h3
          refine ⟨[a, b], rfl, ?_⟩
          intro c hc
          simp only [List.mem_cons, List.not_mem_nil, or_false] at hc
          rcases hc with rfl | rfl
          · rw [h3.1]; decide
          · exact h3.2.1
        · rw [if_neg h3] at h
          by_cases h4 : (isDigitA a && a ≠ '0') = true
          · rw [if_pos h4] at h
            obtain ⟨-, hr⟩ := Prod.mk.injEq .. ▸ Option.some_inj.mp h
            subst hr
            simp only [Bool.and_eq_true] at h4
            exact ⟨[a], rfl, by intro c hc; simp at hc; rw [hc]; exact h4.1⟩
          · rw [if_neg h4] at h
            exact absurd h (by simp)

theorem fTwoSep_chars (p1 p2 : List Char → Option (Nat × List Char)) (sep : Char)
    (hp1 : ∀ cs v r, p1 cs = some (v, r) → ∃ pre, cs = pre ++ r ∧ ∀ c ∈ pre, isDigitA c = true)
    (hp2 : ∀ cs v r, p2 cs = some (v, r) → ∃ pre, cs = pre ++ r ∧ ∀ c ∈ pre, isDigitA c = true)
    (cs : List Char) (t : Nat × Nat × Nat) (h : fTwoSep p1 p2 sep cs = some t) :
    ∀ c ∈ cs, isDigitA c = true ∨ c = sep := by
  simp only [fTwoSep, bind, Option.bind_eq_some] at h
  obtain ⟨⟨v1, r1⟩, h1, h⟩ := h
  obtain ⟨r2, h2, h⟩ := h
  obtain ⟨⟨v2, r3⟩, h3, h⟩ := h
  obtain ⟨r4, h4, h⟩ := h
  obtain ⟨⟨y, r5⟩, h5, h⟩ := h
  have hr5 : r5 = [] := by
    by_contra hne
    rw [if_neg hne] at h
    exact absurd h (by simp)
  subst hr5
  obtain ⟨pre1, hcs, hd1⟩ := hp1 cs v1 r1 h1
  have hsep1 := pLit_some sep r1 r2 h2
  obtain ⟨pre2, hpre2, hd2⟩ := hp2 r2 v2 r3 h3
  have hsep2 := pLit_some sep r3 r4 h4
  obtain ⟨pre4, hpre4, hd4⟩ := p4Y_some r4 y [] h5
  intro c hc
  rw [hcs, hsep1, hpre2, hsep2, hpre4] at hc
  simp only [List.append_nil, List.mem_append, List.mem_cons] at hc
  rcases hc with hc | hc | hc | hc | hc
  · exact Or.inl (hd1 c hc)
  · exact Or.inr hc
  · exact Or.inl (hd2 c hc)
  · exact Or.inr hc
  · exact Or.inl (hd4 c hc)

theorem fYmd_none (cs : List Char) (h : p4Y cs = none) : fYmd cs = none := by
  simp [fYmd, bind, h]

theorem fYmdT_none (cs : List Char) (h : p4Y cs = none) : fYmdT cs = none := by
  simp [fYmdT, bind, h]

theorem fYmdTf_none (cs : List Char) (h : p4Y cs = none) : fYmdTf cs = none := by
  simp [fYmdTf, bind, h]

theorem fYmdSp_none (cs : List Char) (h : p4Y cs = none) : fYmdSp cs = none := by
  simp [fYmdSp, bind, h]

theorem starts4_append (t u : List Char) (h : starts4digit t = true) :
    starts4digit (t ++ u) = true := by
  rcases t with _ | ⟨a, _ | ⟨b, _ | ⟨c, _ | ⟨d, rest⟩⟩⟩⟩ <;>
    simp only [starts4digit] at h ⊢
  · exact absurd h (by simp)
  · exact absurd h (by simp)
  · exact absurd h (by simp)
  · exact absurd h (by simp)
  · exact h

theorem mem_takeWhile_pred {α : Type} (p : α → Bool) :
    ∀ (l : List α) (c : α), c ∈ l.takeWhile p → p c = true := by
  intro l
  induction l with
  | nil => intro c hc; exact absurd hc (by simp)
  | cons a rest ih =>
    intro c hc
    by_cases ha : p a = true
    · rw [List.takeWhile_cons, if_pos ha] at hc
      rcases List.mem_cons.mp hc with rfl | hc2
      · exact ha
      · exact ih c hc2
    · rw [List.takeWhile_cons, if_neg ha] at hc
      exact absurd hc (by simp)

theorem trim_decomp_nonws (a : Char) (ha : isWs a = false) (l : List Char) :
    ∃ u, (a :: l) = trimCharList (a :: l) ++ u ∧ ∀ c ∈ u, isWs c = true := by
  have hl : (a :: l).dropWhile isWs = a :: l := by
    rw [List.dropWhile_cons, if_neg (by rw [ha]; simp)]
  refine ⟨((a :: l).reverse.takeWhile isWs).reverse, ?_, ?_⟩
  · unfold trimCharList
    rw [hl]
    calc a :: l = ((a :: l).reverse).reverse := (List.reverse_reverse _).symm
    _ = (((a :: l).reverse.takeWhile isWs) ++ ((a :: l).reverse.dropWhile isWs)).reverse := by
        rw [List.takeWhile_append_dropWhile]
    _ = ((a :: l).reverse.dropWhile isWs).reverse ++
        ((a :: l).reverse.takeWhile isWs).reverse := by
        rw [List.reverse_append]
  · intro c hc
    rw [List.mem_reverse] at hc
    exact mem_takeWhile_pred isWs _ c hc

theorem starts20_shape (cs : List Char) (h : starts20 cs = true) :
    ∃ r, cs = '2' :: '0' :: r := by
  rcases cs with _ | ⟨a, _ | ⟨b, r⟩⟩ <;> simp only [starts20] at h
  · exact absurd h (by simp)
  · exact absurd h (by simp)
  · simp only [Bool.and_eq_true, decide_eq_true_eq] at h
    exact ⟨r, by rw [h.1, h.2]⟩

theorem firstFormat_none_of_alpha (t : List Char) (hat : hasAlphaL t = true)
    (h4t : starts4digit t = false) : firstFormat t = none := by
  have hy := p4Y_none_of t h4t
  obtain ⟨c, hcmem, hca⟩ : ∃ c ∈ t, isAlphaA c = true := by
    simpa [hasAlphaL, List.any_eq_true] using hat
  have hgen : ∀ (p1 p2 : List Char → Option (Nat × List Char)),
      (∀ cs v r, p1 cs = some (v, r) →
        ∃ pre, cs = pre ++ r ∧ ∀ c2 ∈ pre, isDigitA c2 = true) →
      (∀ cs v r, p2 cs = some (v, r) →
        ∃ pre, cs = pre ++ r ∧ ∀ c2 ∈ pre, isDigitA c2 = true) →
      ∀ sep : Char, isAlphaA sep = false → fTwoSep p1 p2 sep t = none := by
    intro p1 p2 hp1 hp2 sep hsep
    cases hx : fTwoSep p1 p2 sep t with
    | none => rfl
    | some tr =>
      exfalso
      rcases fTwoSep_chars p1 p2 sep hp1 hp2 t tr hx c hcmem with hdig | hceq
      · rw [isAlphaA_not_digit c hca] at hdig
        exact absurd hdig (by simp)
      · rw [hceq] at hca
        rw [hca] at hsep
        exact absurd hsep (by simp)
  have hd1 : fDmyDash t = none := by
    rw [fDmyDash, hgen pDay pMonth pDay_some pMonth_some '-' (by decide)]
    rfl
  have hd2 : fDmySlash t = none := by
    rw [fDmySlash, hgen pDay pMonth pDay_some pMonth_some '/' (by decide)]
    rfl
  have hd3 : fMdySlash t = none := by
    rw [fMdySlash, hgen pMonth pDay pMonth_some pDay_some '/' (by decide)]
    rfl
  simp [firstFormat, fYmd_none t hy, fYmdT_none t hy, fYmdTf_none t hy, fYmdSp_none t hy,
    hd1, hd2, hd3]

/-- **C5 (counterexample).** `"1999-01-02T03:04:05"` contains a letter
(`T`) and DOES start with a 4-digit year, so the claim's procedure parses
it via `%Y-%m-%dT%H:%M:%S` to `"1999-01-02"`; but `_parse_date` tests the
literal prefix `"20"`, rejects it, and returns null. -/
theorem c5_date_parsing_counterexample :
    parse_date "1999-01-02T03:04:05" = none ∧
    specNormalizeDate "1999-01-02T03:04:05" = some "1999-01-02" ∧
    hasAlphaL "1999-01-02T03:04:05".data = true ∧
    starts4digit "1999-01-02T03:04:05".data = true := by
  decide

/-- **C5 (amended).** `_parse_date` normalizes date strings by trying the
fixed ordered format list (ISO date, ISO date-times, then European
day-first, then US month-first), except that ANY letter-containing string
is rejected up front unless it starts with the literal prefix `"20"` (so
ISO date-times with years outside 20xx are normalized to null as well).
In particular the claim's rejection clause does hold: every string that
contains a letter and does not start with a 4-digit year is normalized to
null; and every successful parse yields an ISO calendar-date rendering. -/
theorem c5_date_parsing_amended (s : String) :
    (hasAlphaL s.data = true → starts20 s.data = false → parse_date s = none) ∧
    (hasAlphaL s.data = true → starts4digit s.data = false → parse_date s = none) ∧
    (∀ r, parse_date s = some r → ∃ y m d, r = renderISO y m d) ∧
    parse_date "2023-01-15T10:20:30" = some "2023-01-15" ∧
    parse_date "01/02/2023" = some "2023-02-01" := by
  have hcode : hasAlphaL s.data = true → starts20 s.data = false → parse_date s = none := by
    intro ha h20
    have hs : s ≠ "" := by
      intro he
      rw [he] at ha
      exact absurd ha (by decide)
    rw [parse_date, if_neg hs, if_pos (by simp [ha, h20])]
  refine ⟨hcode, ?_, ?_, by decide, by decide⟩
  · intro ha h4
    by_cases h20 : starts20 s.data = true
    · have hs : s ≠ "" := by
        intro he
        rw [he] at ha
        exact absurd ha (by decide)
      rw [parse_date, if_neg hs, if_neg (by simp [h20])]
      obtain ⟨rest, hsd⟩ := starts20_shape s.data h20
      obtain ⟨u, hdecomp, hu⟩ := trim_decomp_nonws '2' (by decide) ('0' :: rest)
      have h4t : starts4digit (trimCharList s.data) = false := by
        rw [hsd]
        by_contra h4t2
        rw [Bool.not_eq_false] at h4t2
        have h4big := starts4_append _ u h4t2
        rw [← hdecomp] at h4big
        rw [hsd] at h4
        rw [h4] at h4big
        exact absurd h4big (by simp)
      have hat : hasAlphaL (trimCharList s.data) = true := by
        obtain ⟨c, hcmem, hca⟩ : ∃ c ∈ s.data, isAlphaA c = true := by
          simpa [hasAlphaL, List.any_eq_true] using ha
        rw [hsd] at hcmem
        rw [hdecomp] at hcmem
        rcases List.mem_append.mp hcmem with hc1 | hc2
        · rw [hsd]
          simp only [hasAlphaL, List.any_eq_true]
          exact ⟨c, hc1, hca⟩
        · have := hu c hc2
          rw [isAlphaA_not_ws c hca] at this
          exact absurd this (by simp)
      rw [firstFormat_none_of_alpha _ hat h4t]
      rfl
    · rw [Bool.not_eq_true] at h20
      exact hcode ha h20
  · intro r hr
    rw [parse_date] at hr
    by_cases hs : s = ""
    · rw [if_pos hs] at hr
      exact absurd hr (by simp)
    · rw [if_neg hs] at hr
      by_cases hg : (hasAlphaL s.data && !starts20 s.data) = true
      · rw [if_pos hg] at hr
        exact absurd hr (by simp)
      · rw [if_neg hg] at hr
        obtain ⟨t, -, ht⟩ := Option.map_eq_some'.mp hr
        exact ⟨t.1, t.2.1, t.2.2, ht.symm⟩

/-- Witness for `c5_date_parsing_amended`: `"20th March"` (letter-bearing,
starts with `"20"` but not with a 4-digit year) and `"N/A"` both normalize
to null; a successful parse has the ISO shape. -/
theorem c5_date_parsing_witness :
    parse_date "20th March" = none ∧
    parse_date "N/A" = none ∧
    ∃ y m d, "2023-02-01" = renderISO y m d := by
  refine ⟨?_, ?_, ?_⟩
  · exact (c5_date_parsing_amended "20th March").2.1 (by decide) (by decide)
  · exact (c5_date_parsing_amended "N/A").1 (by decide) (by decide)
  · exact (c5_date_parsing_amended "01/02/2023").2.2.1 "2023-02-01" (by decide)
